import Mathlib

/-!
# Workout timer: timeline builder and phase state machine

A shallow embedding of `src/workout-timer.js` (class `WorkoutTimer`): the
one-pass preprocessing `processExercises`, which flattens the exercise list
into absolute offsets, and the state machine driven by `tick`, `start`,
`pause`, `reset` and the two auxiliary browser intervals (countdown overlay,
block rest).

Modelling conventions.
* JavaScript numbers that hold seconds or indices are `Int` in the state
  machine and in the whole-number builder `processExercises`.  The section
  on JavaScript numbers has the doubles themselves (`JSNumber`) and the
  builder over them (`Js.processExercises`); the two builders agree while
  every time is a whole number below `2 ^ 53` in magnitude
  (`processExercises_toJs`).
* A JavaScript object used as a table is an association list; a property
  lookup `obj[key]` is `List.lookup`, and `none` stands for `undefined`.
* DOM updates and audio have no effect on the fields modelled here and are
  left out; each place where the source calls them is marked in a comment.
* Reading a property of `undefined` throws a `TypeError`.  In
  `processExercises` this is the result `none`.
-/

namespace WorkoutTimer

/-! ## Configuration data -/

/-- One element of `timing.exercises`. -/
structure Exercise where
  n : Int
  id : String
  block : String
  work_s : Int
  setup_s : Int
deriving DecidableEq

/-- The object `timing.config`. -/
structure TimingConfig where
  countdown_s : Int
  up_next_notice_s : Int
  block_rest_s : List (String × Int)
deriving DecidableEq

/-- The timing file (`workout_exercise_sequence_and_time.json`). -/
structure Timing where
  schema_version : String
  config : TimingConfig
  sequence : List String
  exercises : List Exercise
deriving DecidableEq

/-- The per-language texts of one exercise, `i18n.exercises[id][lang]`;
a missing property is `none`. -/
structure LangText where
  name : Option String
  description : Option String
  setup_hint : Option String
deriving DecidableEq

/-- The object `i18n.exercises[id]`: an icon and one `LangText` per language. -/
structure ExerciseData where
  icon : Option String
  langs : List (String × LangText)
deriving DecidableEq

/-- The text file (`workout_exercise_text_and_i18n.json`), without the `ui`
table, which only feeds the display. -/
structure I18n where
  schema_version : String
  languages : List String
  blocks : List (String × List (String × String))
  exercises : List (String × ExerciseData)
deriving DecidableEq

/-! ## Timeline builder -/

/-- One element of `this.processedExercises`. -/
structure ProcessedExercise where
  id : String
  n : Int
  block : String
  setupStartTime : Int
  workStartTime : Int
  endTime : Int
  setup_s : Int
  work_s : Int
  totalDuration : Int
  icon : Option String
  blockName : String
  name : Option String
  description : Option String
  setupHint : Option String
deriving DecidableEq

/-- The expression `timing.config.block_rest_s[block] || 0`. -/
def blockRestSeconds (config : TimingConfig) (block : String) : Int :=
  (config.block_rest_s.lookup block).getD 0

/-- The expression `i18n.blocks[currentLang][exercise.block] || exercise.block`,
given the table `i18n.blocks[currentLang]`: an absent or empty name falls back
to the block id. -/
def blockDisplayName (names : List (String × String)) (block : String) : String :=
  match names.lookup block with
  | some s => if s = "" then block else s
  | none => block

/-- The variables the `forEach` callback of `processExercises` closes over. -/
structure BuildState where
  currentTime : Int
  currentBlock : Option String
  processedExercises : List ProcessedExercise
deriving DecidableEq

/-- The first statement of the `forEach` callback: the clock after the block
rest, if any, has been added.
`if (currentBlock !== null && currentBlock !== exercise.block)` and inside it
`if (blockRestSeconds > 0) currentTime += blockRestSeconds`. -/
def clockAfterRest (config : TimingConfig) (currentTime : Int)
    (currentBlock : Option String) (exercise : Exercise) : Int :=
  match currentBlock with
  | none => currentTime
  | some cb =>
    if cb ≠ exercise.block then
      if blockRestSeconds config cb > 0 then currentTime + blockRestSeconds config cb
      else currentTime
    else currentTime

/-- The body of the `forEach` callback of `processExercises`, for one exercise.
`none` is the `TypeError` raised when `exerciseData`, `i18n.blocks[currentLang]`
or `exerciseData[currentLang]` is `undefined`. -/
def processOne (timing : Timing) (i18n : I18n) (currentLang : String)
    (st : BuildState) (exercise : Exercise) : Option BuildState :=
  let currentTime := clockAfterRest timing.config st.currentTime st.currentBlock exercise
  match i18n.exercises.lookup exercise.id with
  | none => none
  | some exerciseData =>
    match i18n.blocks.lookup currentLang with
    | none => none
    | some names =>
      match exerciseData.langs.lookup currentLang with
      | none => none
      | some text =>
        let setupStartTime := currentTime
        let workStartTime := currentTime + exercise.setup_s
        let exerciseEndTime := workStartTime + exercise.work_s
        let processedExercise : ProcessedExercise :=
          { id := exercise.id
            n := exercise.n
            block := exercise.block
            setupStartTime := setupStartTime
            workStartTime := workStartTime
            endTime := exerciseEndTime
            setup_s := exercise.setup_s
            work_s := exercise.work_s
            totalDuration := exercise.setup_s + exercise.work_s
            icon := exerciseData.icon
            blockName := blockDisplayName names exercise.block
            name := text.name
            description := text.description
            setupHint := text.setup_hint }
        some { currentTime := exerciseEndTime
               currentBlock := some exercise.block
               processedExercises := st.processedExercises ++ [processedExercise] }

/-- The method `processExercises`: on success the pair
`(this.processedExercises, this.totalWorkoutSeconds)`. -/
def processExercises (timing : Timing) (i18n : I18n) (currentLang : String) :
    Option (List ProcessedExercise × Int) :=
  (timing.exercises.foldlM (processOne timing i18n currentLang)
      { currentTime := 0, currentBlock := none, processedExercises := [] }).map
    fun st => (st.processedExercises, st.currentTime)

/-! ### The scenario of the specification -/

/-- Exercise A: block `A`, setup 0, work 2. -/
def exA : Exercise := { n := 1, id := "a", block := "A", work_s := 2, setup_s := 0 }

/-- Exercise B: block `B`, setup 1, work 3. -/
def exB : Exercise := { n := 2, id := "b", block := "B", work_s := 3, setup_s := 1 }

/-- Two exercises A then B, `rest[A] = 5`, countdown 3. -/
def demoTiming : Timing :=
  { schema_version := "timed-v1"
    config := { countdown_s := 3, up_next_notice_s := 5, block_rest_s := [("A", 5)] }
    sequence := ["A", "B"]
    exercises := [exA, exB] }

/-- Texts for the two exercises in the language `it`. -/
def demoI18n : I18n :=
  { schema_version := "i18n-v1"
    languages := ["it"]
    blocks := [("it", [("A", "Blocco A"), ("B", "Blocco B")])]
    exercises :=
      [("a", { icon := some "1", langs := [("it", { name := some "Uno", description := some "primo", setup_hint := some "." })] }),
       ("b", { icon := some "2", langs := [("it", { name := some "Due", description := some "secondo", setup_hint := some "." })] })] }

/-- The entry `processExercises` builds for exercise A of the scenario. -/
def procA : ProcessedExercise :=
  { id := "a", n := 1, block := "A", setupStartTime := 0, workStartTime := 0, endTime := 2,
    setup_s := 0, work_s := 2, totalDuration := 2, icon := some "1", blockName := "Blocco A",
    name := some "Uno", description := some "primo", setupHint := some "." }

/-- The entry `processExercises` builds for exercise B of the scenario. -/
def procB : ProcessedExercise :=
  { id := "b", n := 2, block := "B", setupStartTime := 7, workStartTime := 8, endTime := 11,
    setup_s := 1, work_s := 3, totalDuration := 4, icon := some "2", blockName := "Blocco B",
    name := some "Due", description := some "secondo", setupHint := some "." }

/-- The timeline `processExercises` builds for the scenario. -/
def demoProcessed : List ProcessedExercise := [procA, procB]


/-! ## Phase state machine -/

/-- The values `this.state.currentPhase` is compared with or assigned. -/
inductive Phase where
  | ready
  | countdown
  | exercise
  | block_rest
  | complete
deriving DecidableEq

/-- The object `this.state` together with the browser timers the methods
create.  `timer` tells whether `this.state.timer` holds a live interval;
`blockRestRemaining` is `none` while the property is `undefined`;
`restTimers` counts the live `restTimer` intervals of `startBlockRest`;
`countdowns` lists the variable `count` of every live `countdownTimer`
interval of `showCountdown`; `pendingStarts` counts the callbacks scheduled by
`setTimeout(…, 500)` that have not run yet. -/
structure State where
  currentLang : String
  currentExerciseIndex : Int
  isRunning : Bool
  isPaused : Bool
  totalElapsedSeconds : Int
  exerciseElapsedSeconds : Int
  currentPhase : Phase
  timer : Bool
  blockRestRemaining : Option Int
  restTimers : Nat
  countdowns : List Int
  pendingStarts : Nat
deriving DecidableEq

/-- The state set up by the constructor. -/
def initialState : State :=
  { currentLang := "it"
    currentExerciseIndex := -1
    isRunning := false
    isPaused := false
    totalElapsedSeconds := 0
    exerciseElapsedSeconds := 0
    currentPhase := Phase.ready
    timer := false
    blockRestRemaining := none
    restTimers := 0
    countdowns := []
    pendingStarts := 0 }

/-- The lookup `this.processedExercises[index]`; `none` is `undefined`. -/
def exerciseAt (processedExercises : List ProcessedExercise) (index : Int) :
    Option ProcessedExercise :=
  if index < 0 then none else processedExercises[index.toNat]?

/-- The method `stopTimer`. -/
def stopTimer (s : State) : State :=
  { s with timer := false }

/-- The method `startTimer`: `stopTimer()` and then a fresh interval. -/
def startTimer (s : State) : State :=
  { stopTimer s with timer := true }

/-- The method `startCurrentExercise`: it logs, refreshes the display and
beeps; no modelled field changes. -/
def startCurrentExercise (s : State) : State := s

/-- The method `completeWorkout` (the display and the victory tune left out). -/
def completeWorkout (s : State) : State :=
  stopTimer { s with isRunning := false, currentPhase := Phase.complete }

/-- The method `startBlockRest`: it enters `block_rest` and creates one more
`restTimer` interval. -/
def startBlockRest (restSeconds : Int) (s : State) : State :=
  { s with currentPhase := Phase.block_rest
           blockRestRemaining := some restSeconds
           restTimers := s.restTimers + 1 }

/-- The callback of the `restTimer` interval of `startBlockRest`.
`blockRestRemaining--` keeps `undefined` as `NaN`, for which the test
`<= 0` is false. -/
def restTimerCallback (s : State) : State :=
  let s1 := { s with blockRestRemaining := s.blockRestRemaining.map (· - 1) }
  match s1.blockRestRemaining with
  | none => s1
  | some remaining =>
    if remaining ≤ 0 then
      startCurrentExercise { s1 with restTimers := s1.restTimers - 1, currentPhase := Phase.exercise }
    else s1

/-- The method `completeCurrentExercise`.  Where `prevExercise` or
`nextExercise` is `undefined` the source throws a `TypeError` that nothing
catches; the callback ends there and the state reached so far stays. -/
def completeCurrentExercise (config : TimingConfig)
    (processedExercises : List ProcessedExercise) (s : State) : State :=
  let s1 := { s with currentExerciseIndex := s.currentExerciseIndex + 1
                     exerciseElapsedSeconds := 0 }
  if s1.currentExerciseIndex ≥ (processedExercises.length : Int) then
    completeWorkout s1
  else
    match exerciseAt processedExercises (s1.currentExerciseIndex - 1),
          exerciseAt processedExercises s1.currentExerciseIndex with
    | some prevExercise, some nextExercise =>
      if prevExercise.block ≠ nextExercise.block then
        if blockRestSeconds config prevExercise.block > 0 then
          startBlockRest (blockRestSeconds config prevExercise.block) s1
        else startCurrentExercise s1
      else startCurrentExercise s1
    | _, _ => s1

/-- The method `handlePhaseTransitions`.  The call `showUpNext()` only writes
to the display and is left out. -/
def handlePhaseTransitions (config : TimingConfig)
    (processedExercises : List ProcessedExercise) (s : State) : State :=
  if s.currentPhase = Phase.countdown then
    if s.totalElapsedSeconds ≥ config.countdown_s then
      startCurrentExercise { s with currentPhase := Phase.exercise, exerciseElapsedSeconds := 0 }
    else s
  else if s.currentPhase = Phase.exercise then
    match exerciseAt processedExercises s.currentExerciseIndex with
    | none => s
    | some currentExercise =>
      if s.exerciseElapsedSeconds ≥ currentExercise.totalDuration then
        completeCurrentExercise config processedExercises s
      else s
  else s

/-- The method `tick` (what follows `handlePhaseTransitions()` only refreshes
the display). -/
def tick (config : TimingConfig) (processedExercises : List ProcessedExercise)
    (s : State) : State :=
  handlePhaseTransitions config processedExercises
    { s with totalElapsedSeconds := s.totalElapsedSeconds + 1
             exerciseElapsedSeconds := s.exerciseElapsedSeconds + 1 }

/-- The method `showCountdown`, with `document.body` present: an overlay and
its `countdownTimer` interval, `count` starting at `countdown_s`. -/
def showCountdown (config : TimingConfig) (s : State) : State :=
  { s with countdowns := s.countdowns ++ [config.countdown_s] }

/-- The arrow function `start()` hands to `showCountdown`. -/
def startCallback (s : State) : State :=
  startCurrentExercise
    (startTimer { s with currentExerciseIndex := 0
                         totalElapsedSeconds := 0
                         exerciseElapsedSeconds := 0
                         currentPhase := Phase.exercise
                         isRunning := true
                         isPaused := false })

/-- The callback of the `k`-th live `countdownTimer` interval: `count--`, and
at `count <= 0` the interval is cleared and the start callback is scheduled
half a second later. -/
def countdownTimerCallback (k : Nat) (s : State) : State :=
  match s.countdowns[k]? with
  | none => s
  | some count =>
    if count - 1 > 0 then { s with countdowns := s.countdowns.set k (count - 1) }
    else { s with countdowns := s.countdowns.eraseIdx k, pendingStarts := s.pendingStarts + 1 }

/-- One scheduled start callback runs (the `setTimeout` of `showCountdown`). -/
def countdownFinished (s : State) : State :=
  if s.pendingStarts = 0 then s
  else startCallback { s with pendingStarts := s.pendingStarts - 1 }

/-- The method `start`. -/
def start (config : TimingConfig) (s : State) : State :=
  if s.isRunning && !s.isPaused then s
  else if !s.isRunning then showCountdown config s
  else startTimer { s with isRunning := true, isPaused := false }

/-- The method `pause`. -/
def pause (s : State) : State :=
  if !s.isRunning || s.isPaused then s
  else stopTimer { s with isPaused := true }

/-- The method `reset`. -/
def reset (s : State) : State :=
  stopTimer { s with isRunning := false
                     isPaused := false
                     currentExerciseIndex := -1
                     totalElapsedSeconds := 0
                     exerciseElapsedSeconds := 0
                     currentPhase := Phase.ready }

/-! ### The one-per-second driver -/

/-- One elapsed second of wall-clock time with every browser timer firing on
schedule: each live countdown interval fires once; the main interval, if it
was live when the second began, calls `tick`; each `restTimer` interval that
was live when the second began fires once (a `restTimer` is created inside a
`tick`, so its deadline falls just after that of the main interval); and the
start callbacks scheduled during this second run. -/
def second (config : TimingConfig) (processedExercises : List ProcessedExercise)
    (s : State) : State :=
  let s1 := (List.range s.countdowns.length).reverse.foldl
    (fun st k => countdownTimerCallback k st) s
  let s2 := if s.timer then tick config processedExercises s1 else s1
  let s3 := Nat.iterate restTimerCallback s.restTimers s2
  Nat.iterate countdownFinished s3.pendingStarts s3

/-- The state after `k` elapsed seconds. -/
def seconds (config : TimingConfig) (processedExercises : List ProcessedExercise)
    (k : Nat) (s : State) : State :=
  Nat.iterate (second config processedExercises) k s

/-- One elapsed second in the other order of the two intervals: each live
`restTimer` interval fires before the main interval calls `tick`. -/
def secondRestFirst (config : TimingConfig) (processedExercises : List ProcessedExercise)
    (s : State) : State :=
  let s1 := (List.range s.countdowns.length).reverse.foldl
    (fun st k => countdownTimerCallback k st) s
  let s2 := Nat.iterate restTimerCallback s.restTimers s1
  let s3 := if s.timer then tick config processedExercises s2 else s2
  Nat.iterate countdownFinished s3.pendingStarts s3

/-- The scenario's machine `k` seconds after `start()` was pressed, the rest
interval firing first in every second. -/
def demoRestFirstAt (k : Nat) : State :=
  Nat.iterate (secondRestFirst demoTiming.config demoProcessed) k
    (start demoTiming.config initialState)

/-- The scenario's machine right after `start()` is pressed in `ready`. -/
def demoStarted : State := start demoTiming.config initialState

/-- The scenario's machine `k` seconds after `start()` was pressed. -/
def demoAt (k : Nat) : State := seconds demoTiming.config demoProcessed k demoStarted


/-! ## Auxiliary definitions for the statements -/

/-- Entry `p` is what `processOne` builds from `exercise` with the clock at `t`
(the text fields are left free). -/
def TimedAs (p : ProcessedExercise) (exercise : Exercise) (t : Int) : Prop :=
  p.id = exercise.id ∧ p.n = exercise.n ∧ p.block = exercise.block ∧
  p.setup_s = exercise.setup_s ∧ p.work_s = exercise.work_s ∧
  p.setupStartTime = t ∧ p.workStartTime = t + exercise.setup_s ∧
  p.endTime = t + exercise.setup_s + exercise.work_s ∧
  p.totalDuration = exercise.setup_s + exercise.work_s

/-- The entries `ps` and the final clock `total` are what the loop of
`processExercises` produces from `exercises`, entered with clock `t` and
previous block `b`. -/
def Built (config : TimingConfig) :
    Int → Option String → List Exercise → List ProcessedExercise → Int → Prop
  | t, _, [], [], total => total = t
  | t, b, e :: es, p :: ps, total =>
    TimedAs p e (clockAfterRest config t b e) ∧ Built config p.endTime (some e.block) es ps total
  | _, _, _, _, _ => False

/-- An exercise has every text `processOne` reads for the language. -/
def HasTexts (i18n : I18n) (currentLang : String) (exercise : Exercise) : Prop :=
  ∃ exerciseData names text,
    i18n.exercises.lookup exercise.id = some exerciseData ∧
    i18n.blocks.lookup currentLang = some names ∧
    exerciseData.langs.lookup currentLang = some text

/-- The specification's first sum: `setup_s + work_s` over all exercises. -/
def specWorkSum (exercises : List Exercise) : Int :=
  (exercises.map fun e => e.setup_s + e.work_s).sum

/-- The specification's second sum: the rest-table entry of the previous
block (0 when there is none) over every adjacent pair whose blocks differ. -/
def specRestSum (config : TimingConfig) : List Exercise → Int
  | e₁ :: e₂ :: es =>
    (if e₁.block ≠ e₂.block then (config.block_rest_s.lookup e₁.block).getD 0 else 0)
      + specRestSum config (e₂ :: es)
  | _ => 0

/-! ## The up-next call and the events of a run -/

/-- Whether `handlePhaseTransitions()` reaches the call `this.showUpNext()`:
only in phase `exercise`, with a current exercise, when
`timeUntilEnd === up_next_notice_s`. -/
def callsShowUpNext (config : TimingConfig) (processedExercises : List ProcessedExercise)
    (s : State) : Bool :=
  if s.currentPhase = Phase.countdown then false
  else if s.currentPhase = Phase.exercise then
    match exerciseAt processedExercises s.currentExerciseIndex with
    | none => false
    | some currentExercise =>
      let timeInWork := s.exerciseElapsedSeconds - currentExercise.setup_s
      let timeUntilEnd := currentExercise.work_s - timeInWork
      decide (timeUntilEnd = config.up_next_notice_s)
  else false

/-- Whether a call of `tick()` in state `s` calls `showUpNext()`: the test is
made after both counters have been incremented. -/
def tickCallsShowUpNext (config : TimingConfig) (processedExercises : List ProcessedExercise)
    (s : State) : Bool :=
  callsShowUpNext config processedExercises
    { s with totalElapsedSeconds := s.totalElapsedSeconds + 1
             exerciseElapsedSeconds := s.exerciseElapsedSeconds + 1 }

/-- What can happen to the machine: the three buttons, the main interval
firing, a `restTimer` interval firing, the `k`-th countdown interval firing,
and a scheduled start callback running. -/
inductive Event where
  | start
  | pause
  | reset
  | tick
  | restStep
  | countdownStep (k : Nat)
  | countdownDone
deriving DecidableEq

/-- An event can happen in state `s`: a button can always be pressed, a timer
fires only while it is live. -/
def enabled (e : Event) (s : State) : Bool :=
  match e with
  | Event.start => true
  | Event.pause => true
  | Event.reset => true
  | Event.tick => s.timer
  | Event.restStep => decide (0 < s.restTimers)
  | Event.countdownStep k => decide (k < s.countdowns.length)
  | Event.countdownDone => decide (0 < s.pendingStarts)

/-- The state after an event. -/
def fire (config : TimingConfig) (processedExercises : List ProcessedExercise)
    (e : Event) (s : State) : State :=
  match e with
  | Event.start => start config s
  | Event.pause => pause s
  | Event.reset => reset s
  | Event.tick => tick config processedExercises s
  | Event.restStep => restTimerCallback s
  | Event.countdownStep k => countdownTimerCallback k s
  | Event.countdownDone => countdownFinished s

/-- The states the machine can be in: the constructor's state and whatever an
enabled event leads to. -/
inductive Reachable (config : TimingConfig) (processedExercises : List ProcessedExercise) :
    State → Prop where
  | init : Reachable config processedExercises initialState
  | step (e : Event) (s : State) :
      Reachable config processedExercises s → enabled e s = true →
      Reachable config processedExercises (fire config processedExercises e s)

/-- The state after a list of events, `none` if one of them is not enabled
when its turn comes. -/
def runEvents (config : TimingConfig) (processedExercises : List ProcessedExercise) :
    List Event → State → Option State
  | [], s => some s
  | e :: es, s =>
    if enabled e s then runEvents config processedExercises es (fire config processedExercises e s)
    else none

/-- The scenario run to its end: start, three countdown steps, the start
callback, two ticks of A, five seconds of rest (main tick, then rest step) and
the tick that ends B. -/
def demoTrace : List Event :=
  [Event.start, Event.countdownStep 0, Event.countdownStep 0, Event.countdownStep 0,
   Event.countdownDone, Event.tick, Event.tick,
   Event.tick, Event.restStep, Event.tick, Event.restStep, Event.tick, Event.restStep,
   Event.tick, Event.restStep, Event.tick, Event.restStep, Event.tick]

/-- The scenario interrupted: A is done and the block rest has begun, then
`reset()` is pressed and the `restTimer` interval fires its five times. -/
def resetDuringRestTrace : List Event :=
  [Event.start, Event.countdownStep 0, Event.countdownStep 0, Event.countdownStep 0,
   Event.countdownDone, Event.tick, Event.tick, Event.reset,
   Event.restStep, Event.restStep, Event.restStep, Event.restStep, Event.restStep]

/-- The state `resetDuringRestTrace` ends in. -/
def staleRestState : State :=
  { initialState with currentPhase := Phase.exercise, blockRestRemaining := some 0 }

/-- An entry with a long setup and a short work phase: setup 10, work 3. -/
def procLongSetup : ProcessedExercise :=
  { id := "c", n := 1, block := "A", setupStartTime := 0, workStartTime := 10, endTime := 13,
    setup_s := 10, work_s := 3, totalDuration := 13, icon := none, blockName := "A",
    name := some "Tre", description := some "terzo", setupHint := some "." }

/-- A sequence that begins with `procLongSetup` and goes on with `procB`. -/
def longSetupProcessed : List ProcessedExercise := [procLongSetup, procB]

/-- The machine `k` ticks into the workout `longSetupProcessed`. -/
def longSetupAt (k : Nat) : State :=
  Nat.iterate (tick demoTiming.config longSetupProcessed) k (startCallback initialState)

/-- The properties of reachable states used for the phase claims: a live main
interval means running; `ready` means not running, index -1 and no elapsed
time; `complete` means not running and the index equal to the length of the
sequence. -/
def PhaseInv (processedExercises : List ProcessedExercise) (s : State) : Prop :=
  (s.timer = true → s.isRunning = true) ∧
  (s.currentPhase = Phase.ready →
    s.isRunning = false ∧ s.currentExerciseIndex = -1 ∧ s.totalElapsedSeconds = 0) ∧
  (s.currentPhase = Phase.complete →
    s.isRunning = false ∧ s.currentExerciseIndex = (processedExercises.length : Int))

/-! ## The builder as a method of the object, and file validation -/

/-- The two fields of the object that `processExercises` writes;
`totalWorkoutSeconds` is `none` while the property is `undefined`. -/
structure TimelineFields where
  processedExercises : List ProcessedExercise
  totalWorkoutSeconds : Option Int
deriving DecidableEq

/-- The `forEach` loop of `processExercises` with the exception made explicit:
the entries pushed when the loop stops, and the final clock if the loop ran to
its end (`none` if a `TypeError` ended it before). -/
def runForEach (timing : Timing) (i18n : I18n) (currentLang : String) :
    List Exercise → BuildState → List ProcessedExercise × Option Int
  | [], st => (st.processedExercises, some st.currentTime)
  | exercise :: rest, st =>
    match processOne timing i18n currentLang st exercise with
    | none => (st.processedExercises, none)
    | some st' => runForEach timing i18n currentLang rest st'

/-- The effect of a call `processExercises()` on the object, and whether the
call threw.  `this.processedExercises = []` comes first and every entry is
pushed as soon as it is built; `this.totalWorkoutSeconds` is assigned after the
loop only. -/
def processExercisesEffect (timing : Timing) (i18n : I18n) (currentLang : String)
    (old : TimelineFields) : TimelineFields × Bool :=
  match runForEach timing i18n currentLang timing.exercises
      { currentTime := 0, currentBlock := none, processedExercises := [] } with
  | (ps, some total) => ({ processedExercises := ps, totalWorkoutSeconds := some total }, false)
  | (ps, none) =>
    ({ processedExercises := ps, totalWorkoutSeconds := old.totalWorkoutSeconds }, true)

/-- The call `processExercises()` as made on an object whose state is `s`: the
only thing it reads from `this.state` is `currentLang`. -/
def processExercisesIn (timing : Timing) (i18n : I18n) (s : State) :
    Option (List ProcessedExercise × Int) :=
  processExercises timing i18n s.currentLang

/-- The state part of the method `setLanguage`: an unsupported language falls
back to `it`.  The method then calls `processExercises()` and refreshes the
display. -/
def setLanguage (i18n : I18n) (lang : String) (s : State) : State :=
  { s with currentLang := if lang ∈ i18n.languages then lang else "it" }

/-- The fields of an entry that are not text. -/
def timingFields (p : ProcessedExercise) :
    String × Int × String × Int × Int × Int × Int × Int × Int :=
  (p.id, p.n, p.block, p.setup_s, p.work_s, p.setupStartTime, p.workStartTime, p.endTime,
    p.totalDuration)

/-- Texts for the scenario in which exercise `b` has an entry for `it` that
lacks `name` and has an empty `description`. -/
def blankI18n : I18n :=
  { demoI18n with
    exercises :=
      [("a", { icon := some "1", langs := [("it", { name := some "Uno", description := some "primo", setup_hint := some "." })] }),
       ("b", { icon := some "2", langs := [("it", { name := none, description := some "", setup_hint := none })] })] }

/-- Texts for the scenario in which exercise `b` has no entry at all. -/
def missingI18n : I18n :=
  { demoI18n with
    exercises :=
      [("a", { icon := some "1", langs := [("it", { name := some "Uno", description := some "primo", setup_hint := some "." })] })] }

/-- The elements of `new Set(xs)` in iteration order: first occurrences, in the
order of insertion. -/
def insertionOrder : List String → List String
  | [] => []
  | x :: xs => x :: (insertionOrder xs).filter (fun y => decide (y ≠ x))

/-- The entries `validateFiles` pushes to `errors`, by the template of their
message: the two schema-version messages (with the version found), a missing
exercise id, a missing block id. -/
inductive ValidationError where
  | timingSchema (found : String)
  | i18nSchema (found : String)
  | missingExercise (id : String)
  | missingBlock (blockId : String)
deriving DecidableEq

/-- The object `validateFiles` returns. -/
structure ValidationResult where
  isValid : Bool
  errors : List ValidationError
deriving DecidableEq

/-- The keys `Object.keys(i18n.blocks.it || {})`. -/
def i18nBlockIds (i18n : I18n) : List String :=
  ((i18n.blocks.lookup "it").getD []).map Prod.fst

/-- The method `ConfigurationManager.validateFiles`. -/
def validateFiles (timing : Timing) (i18n : I18n) : ValidationResult :=
  let errors₁ : List ValidationError :=
    if timing.schema_version ≠ "timed-v1" then
      [ValidationError.timingSchema timing.schema_version] else []
  let errors₂ : List ValidationError :=
    if i18n.schema_version ≠ "i18n-v1" then
      [ValidationError.i18nSchema i18n.schema_version] else []
  let timingExerciseIds := insertionOrder (timing.exercises.map fun ex => ex.id)
  let i18nExerciseIds := i18n.exercises.map Prod.fst
  let errors₃ : List ValidationError :=
    (timingExerciseIds.filter fun id => decide (id ∉ i18nExerciseIds)).map
      ValidationError.missingExercise
  let timingBlockIds :=
    insertionOrder (timing.sequence ++ timing.exercises.map fun ex => ex.block)
  let errors₄ : List ValidationError :=
    (timingBlockIds.filter fun blockId => decide (blockId ∉ i18nBlockIds i18n)).map
      ValidationError.missingBlock
  let errors := errors₁ ++ errors₂ ++ errors₃ ++ errors₄
  { isValid := decide (errors.length = 0), errors := errors }

/-- A timing file with a wrong schema version, exercise `b` twice and a block
`C` in `sequence` that has no name. -/
def badTiming : Timing :=
  { demoTiming with schema_version := "timed-v2", sequence := ["A", "C", "B", "C"],
                    exercises := [exA, exB, exB] }

/-- Texts for the scenario whose `blocks` table has the language `en` only:
`i18n.blocks.it` is `undefined`. -/
def enOnlyI18n : I18n :=
  { demoI18n with blocks := [("en", [("A", "Block A"), ("B", "Block B")])] }

/-- Texts for the scenario in two languages, `it` and `en`. -/
def bilingualI18n : I18n :=
  { schema_version := "i18n-v1"
    languages := ["it", "en"]
    blocks := [("it", [("A", "Blocco A"), ("B", "Blocco B")]),
               ("en", [("A", "Block A"), ("B", "Block B")])]
    exercises :=
      [("a", { icon := some "1",
               langs := [("it", { name := some "Uno", description := some "primo", setup_hint := some "." }),
                         ("en", { name := some "One", description := some "first", setup_hint := some "." })] }),
       ("b", { icon := some "2",
               langs := [("it", { name := some "Due", description := some "secondo", setup_hint := some "." }),
                         ("en", { name := some "Two", description := some "second", setup_hint := some "." })] })] }

/-- The scenario's timeline with the English texts. -/
def demoProcessedEn : List ProcessedExercise :=
  [{ procA with blockName := "Block A", name := some "One", description := some "first" },
   { procB with blockName := "Block B", name := some "Two", description := some "second" }]

/-- Entry `p` carries the texts that the table has for `exercise` in the
language: `name`, `description`, `setup_hint` and the icon, as they are there. -/
def TextAs (i18n : I18n) (currentLang : String) (p : ProcessedExercise)
    (exercise : Exercise) : Prop :=
  ∃ exerciseData text,
    i18n.exercises.lookup exercise.id = some exerciseData ∧
    exerciseData.langs.lookup currentLang = some text ∧
    p.name = text.name ∧ p.description = text.description ∧
    p.setupHint = text.setup_hint ∧ p.icon = exerciseData.icon

/-- A running machine has its index inside the sequence. -/
def RunningIndexInv (processedExercises : List ProcessedExercise) (s : State) : Prop :=
  s.isRunning = true →
    0 ≤ s.currentExerciseIndex ∧ s.currentExerciseIndex < (processedExercises.length : Int)

/-! ## JavaScript numbers

The definitions above take seconds as `Int`, which is what the source computes
as long as every number is whole and no sum leaves the range in which a double
is exact.  The numbers of the two JSON files are IEEE 754 doubles.  This
section models them, with the operators the builder and the up-next test
apply to them (`+`, `-`, `>`, `===`, `||`), and repeats the builder over them,
so that the whole-number model can be compared with it. -/

/-- A JavaScript number.  `finite m e` is the double `m * 2 ^ e`; the same
value can have several such pairs, which `JSNumber.eq` identifies.  The sign
of zero is not kept: none of the operators used here tells `-0` from `0`. -/
inductive JSNumber where
  | finite (m : Int) (e : Int)
  | posInf
  | negInf
  | nan
deriving DecidableEq

namespace JSNumber

/-- The double that holds the whole number `n` (exactly, when `n` is a double). -/
def ofInt (n : Int) : JSNumber := finite n 0

/-- Auxiliary loop of `bitLength`. -/
def bitLength.go : Nat → Nat → Nat
  | 0, _ => 0
  | fuel + 1, n => if n = 0 then 0 else bitLength.go fuel (n / 2) + 1

/-- The number of binary digits of `n`. -/
def bitLength (n : Nat) : Nat := bitLength.go n n

/-- The integer nearest to `M / 2 ^ k`, a tie going to the even one. -/
def roundHalfEven (M : Int) (k : Nat) : Int :=
  let q := M / 2 ^ k
  let r := M % 2 ^ k
  let half : Int := 2 ^ k / 2
  if r < half then q else if r > half then q + 1 else if q % 2 = 0 then q else q + 1

/-- The double nearest to the exact value `M * 2 ^ e` (round to nearest, ties
to even, 53 significant bits); a value beyond the largest double
`(2 ^ 53 - 1) * 2 ^ 971` becomes an infinity.  The exact sum of two doubles is
a multiple of the smallest double, so no rounding happens at that end. -/
def roundToDouble (M : Int) (e : Int) : JSNumber :=
  if M.natAbs < 2 ^ 53 then finite M e
  else
    let k := bitLength M.natAbs - 53
    let M' := roundHalfEven M k
    if 971 < e + (k : Int) ∨ (e + (k : Int) = 971 ∧ 2 ^ 53 ≤ M'.natAbs) then
      (if 0 < M then posInf else negInf)
    else finite M' (e + (k : Int))

/-- The operator `+` on numbers. -/
def add : JSNumber → JSNumber → JSNumber
  | finite m₁ e₁, finite m₂ e₂ =>
    roundToDouble (m₁ * 2 ^ (e₁ - min e₁ e₂).toNat + m₂ * 2 ^ (e₂ - min e₁ e₂).toNat)
      (min e₁ e₂)
  | nan, _ => nan
  | _, nan => nan
  | posInf, negInf => nan
  | negInf, posInf => nan
  | posInf, _ => posInf
  | _, posInf => posInf
  | negInf, _ => negInf
  | _, negInf => negInf

/-- The unary operator `-`. -/
def neg : JSNumber → JSNumber
  | finite m e => finite (-m) e
  | posInf => negInf
  | negInf => posInf
  | nan => nan

/-- The operator `-` on numbers. -/
def sub (a b : JSNumber) : JSNumber := add a (neg b)

/-- The comparison `a < b`; `a > b` is `lt b a`.  It is false when either side
is `NaN`. -/
def lt : JSNumber → JSNumber → Bool
  | finite m₁ e₁, finite m₂ e₂ =>
    decide (m₁ * 2 ^ (e₁ - min e₁ e₂).toNat < m₂ * 2 ^ (e₂ - min e₁ e₂).toNat)
  | nan, _ => false
  | _, nan => false
  | negInf, negInf => false
  | negInf, _ => true
  | posInf, _ => false
  | _, posInf => true
  | _, negInf => false

/-- The comparison `a === b` of two numbers; `NaN` equals nothing. -/
def eq : JSNumber → JSNumber → Bool
  | finite m₁ e₁, finite m₂ e₂ =>
    decide (m₁ * 2 ^ (e₁ - min e₁ e₂).toNat = m₂ * 2 ^ (e₂ - min e₁ e₂).toNat)
  | posInf, posInf => true
  | negInf, negInf => true
  | _, _ => false

/-- The comparison `a <= b`; `a >= b` is `le b a`. -/
def le (a b : JSNumber) : Bool := a.lt b || a.eq b

/-- Whether the number is truthy, as `||` tests it: `0` and `NaN` are not. -/
def truthy : JSNumber → Bool
  | finite m _ => decide (m ≠ 0)
  | posInf => true
  | negInf => true
  | nan => false

end JSNumber

/-- A whole number that a double holds exactly together with its neighbours
(`Number.isSafeInteger`): magnitude below `2 ^ 53`. -/
def SafeInt (x : Int) : Prop := -9007199254740992 < x ∧ x < 9007199254740992

instance (x : Int) : Decidable (SafeInt x) := by
  unfold SafeInt
  exact inferInstance

namespace Js

/-- One element of `timing.exercises`, its durations as the numbers they are. -/
structure Exercise where
  n : Int
  id : String
  block : String
  work_s : JSNumber
  setup_s : JSNumber
deriving DecidableEq

/-- One element of `this.processedExercises`, its times as numbers. -/
structure ProcessedExercise where
  id : String
  n : Int
  block : String
  setupStartTime : JSNumber
  workStartTime : JSNumber
  endTime : JSNumber
  setup_s : JSNumber
  work_s : JSNumber
  totalDuration : JSNumber
  icon : Option String
  blockName : String
  name : Option String
  description : Option String
  setupHint : Option String
deriving DecidableEq

/-- The expression `timing.config.block_rest_s[block] || 0`. -/
def blockRestSeconds (block_rest_s : List (String × JSNumber)) (block : String) : JSNumber :=
  match block_rest_s.lookup block with
  | some r => if r.truthy then r else JSNumber.ofInt 0
  | none => JSNumber.ofInt 0

/-- The variables the `forEach` callback of `processExercises` closes over. -/
structure BuildState where
  currentTime : JSNumber
  currentBlock : Option String
  processedExercises : List ProcessedExercise
deriving DecidableEq

/-- The first statement of the `forEach` callback:
`if (currentBlock !== null && currentBlock !== exercise.block)` and inside it
`if (blockRestSeconds > 0) currentTime += blockRestSeconds`. -/
def clockAfterRest (block_rest_s : List (String × JSNumber)) (currentTime : JSNumber)
    (currentBlock : Option String) (exercise : Exercise) : JSNumber :=
  match currentBlock with
  | none => currentTime
  | some cb =>
    if cb ≠ exercise.block then
      if (JSNumber.ofInt 0).lt (blockRestSeconds block_rest_s cb) then
        currentTime.add (blockRestSeconds block_rest_s cb)
      else currentTime
    else currentTime

/-- The body of the `forEach` callback of `processExercises`, for one exercise;
`none` is the `TypeError` of a missing text table. -/
def processOne (block_rest_s : List (String × JSNumber)) (i18n : I18n) (currentLang : String)
    (st : BuildState) (exercise : Exercise) : Option BuildState :=
  let currentTime := clockAfterRest block_rest_s st.currentTime st.currentBlock exercise
  match i18n.exercises.lookup exercise.id with
  | none => none
  | some exerciseData =>
    match i18n.blocks.lookup currentLang with
    | none => none
    | some names =>
      match exerciseData.langs.lookup currentLang with
      | none => none
      | some text =>
        let setupStartTime := currentTime
        let workStartTime := currentTime.add exercise.setup_s
        let exerciseEndTime := workStartTime.add exercise.work_s
        let processedExercise : ProcessedExercise :=
          { id := exercise.id
            n := exercise.n
            block := exercise.block
            setupStartTime := setupStartTime
            workStartTime := workStartTime
            endTime := exerciseEndTime
            setup_s := exercise.setup_s
            work_s := exercise.work_s
            totalDuration := exercise.setup_s.add exercise.work_s
            icon := exerciseData.icon
            blockName := blockDisplayName names exercise.block
            name := text.name
            description := text.description
            setupHint := text.setup_hint }
        some { currentTime := exerciseEndTime
               currentBlock := some exercise.block
               processedExercises := st.processedExercises ++ [processedExercise] }

/-- The method `processExercises` over numbers: on success the pair
`(this.processedExercises, this.totalWorkoutSeconds)`. -/
def processExercises (block_rest_s : List (String × JSNumber)) (exercises : List Exercise)
    (i18n : I18n) (currentLang : String) : Option (List ProcessedExercise × JSNumber) :=
  (exercises.foldlM (processOne block_rest_s i18n currentLang)
      { currentTime := JSNumber.ofInt 0, currentBlock := none, processedExercises := [] }).map
    fun st => (st.processedExercises, st.currentTime)

/-- The argument of the call `this.startBlockRest(blockRestSeconds)` in
`completeCurrentExercise()` for the adjacent entries `prevExercise` and
`nextExercise`; `none` when the call is not reached. -/
def blockRestStarted (block_rest_s : List (String × JSNumber))
    (prevExercise nextExercise : ProcessedExercise) : Option JSNumber :=
  if prevExercise.block ≠ nextExercise.block then
    if (JSNumber.ofInt 0).lt (blockRestSeconds block_rest_s prevExercise.block) then
      some (blockRestSeconds block_rest_s prevExercise.block)
    else none
  else none

/-- The test `timeUntilEnd === this.config.timing.config.up_next_notice_s` of
`handlePhaseTransitions()`, with
`timeInWork = exerciseElapsedSeconds - currentExercise.setup_s` and
`timeUntilEnd = currentExercise.work_s - timeInWork`. -/
def upNextTest (exerciseElapsedSeconds setup_s work_s up_next_notice_s : JSNumber) : Bool :=
  let timeInWork := exerciseElapsedSeconds.sub setup_s
  let timeUntilEnd := work_s.sub timeInWork
  timeUntilEnd.eq up_next_notice_s

/-- The test `this.state.exerciseElapsedSeconds >= currentExercise.totalDuration`
that ends an exercise. -/
def exerciseComplete (exerciseElapsedSeconds totalDuration : JSNumber) : Bool :=
  totalDuration.le exerciseElapsedSeconds

end Js

/-- A whole-number exercise as the numbers the file holds. -/
def Exercise.toJs (e : Exercise) : Js.Exercise :=
  { n := e.n, id := e.id, block := e.block
    work_s := JSNumber.ofInt e.work_s, setup_s := JSNumber.ofInt e.setup_s }

/-- A whole-number entry as numbers. -/
def ProcessedExercise.toJs (p : ProcessedExercise) : Js.ProcessedExercise :=
  { id := p.id, n := p.n, block := p.block
    setupStartTime := JSNumber.ofInt p.setupStartTime
    workStartTime := JSNumber.ofInt p.workStartTime
    endTime := JSNumber.ofInt p.endTime
    setup_s := JSNumber.ofInt p.setup_s
    work_s := JSNumber.ofInt p.work_s
    totalDuration := JSNumber.ofInt p.totalDuration
    icon := p.icon, blockName := p.blockName, name := p.name
    description := p.description, setupHint := p.setupHint }

/-- A whole-number rest table as numbers. -/
def restTableJs (config : TimingConfig) : List (String × JSNumber) :=
  config.block_rest_s.map fun kv => (kv.1, JSNumber.ofInt kv.2)

/-- A whole-number builder state as numbers. -/
def BuildState.toJs (st : BuildState) : Js.BuildState :=
  { currentTime := JSNumber.ofInt st.currentTime
    currentBlock := st.currentBlock
    processedExercises := st.processedExercises.map ProcessedExercise.toJs }

/-- Every time of the entry is a safe integer. -/
def SafeEntry (p : ProcessedExercise) : Prop :=
  SafeInt p.setupStartTime ∧ SafeInt p.workStartTime ∧ SafeInt p.endTime ∧
  SafeInt p.totalDuration

instance (p : ProcessedExercise) : Decidable (SafeEntry p) := by
  unfold SafeEntry
  exact inferInstance

/-- The durations and rests of the file are safe integers, and so is every
time of its exact timeline `ps`: the range in which the sums of the builder are
computed without rounding. -/
def SafeTimeline (timing : Timing) (ps : List ProcessedExercise) : Prop :=
  (∀ e ∈ timing.exercises, SafeInt e.setup_s ∧ SafeInt e.work_s) ∧
  (∀ kv ∈ timing.config.block_rest_s, SafeInt kv.2) ∧
  ∀ p ∈ ps, SafeEntry p

instance (timing : Timing) (ps : List ProcessedExercise) :
    Decidable (SafeTimeline timing ps) := by
  unfold SafeTimeline
  exact inferInstance

/-- A file with whole-number durations that leave the exact range: A (block
`A`, setup 0, work `2 ^ 53`), B (block `B`, setup 1, work 1), `rest[A] = 1`. -/
def hugeTiming : Timing :=
  { schema_version := "timed-v1"
    config := { countdown_s := 3, up_next_notice_s := 5, block_rest_s := [("A", 1)] }
    sequence := ["A", "B"]
    exercises :=
      [{ n := 1, id := "a", block := "A", work_s := 9007199254740992, setup_s := 0 },
       { n := 2, id := "b", block := "B", work_s := 1, setup_s := 1 }] }

/-- The entry the builder makes for exercise A of `hugeTiming`; its end
`2 ^ 53` is held as `2 ^ 52 * 2`. -/
def hugeA : Js.ProcessedExercise :=
  { id := "a", n := 1, block := "A"
    setupStartTime := JSNumber.ofInt 0, workStartTime := JSNumber.ofInt 0
    endTime := JSNumber.finite 4503599627370496 1
    setup_s := JSNumber.ofInt 0, work_s := JSNumber.ofInt 9007199254740992
    totalDuration := JSNumber.finite 4503599627370496 1
    icon := some "1", blockName := "Blocco A"
    name := some "Uno", description := some "primo", setupHint := some "." }

/-- The entry the builder makes for exercise B of `hugeTiming`: its three
times are all `2 ^ 53`, held as `2 ^ 52 * 2`. -/
def hugeB : Js.ProcessedExercise :=
  { id := "b", n := 2, block := "B"
    setupStartTime := JSNumber.finite 4503599627370496 1
    workStartTime := JSNumber.finite 4503599627370496 1
    endTime := JSNumber.finite 4503599627370496 1
    setup_s := JSNumber.ofInt 1, work_s := JSNumber.ofInt 1
    totalDuration := JSNumber.ofInt 2
    icon := some "2", blockName := "Blocco B"
    name := some "Due", description := some "secondo", setupHint := some "." }

/-- The entries `hugeA`, `hugeB` with each time written as the whole number it
is, for the state machine. -/
def hugeProcessed : List ProcessedExercise :=
  [{ id := "a", n := 1, block := "A", setupStartTime := 0, workStartTime := 0
     endTime := 9007199254740992, setup_s := 0, work_s := 9007199254740992
     totalDuration := 9007199254740992, icon := some "1", blockName := "Blocco A"
     name := some "Uno", description := some "primo", setupHint := some "." },
   { id := "b", n := 2, block := "B", setupStartTime := 9007199254740992
     workStartTime := 9007199254740992, endTime := 9007199254740992
     setup_s := 1, work_s := 1, totalDuration := 2, icon := some "2"
     blockName := "Blocco B", name := some "Due", description := some "secondo"
     setupHint := some "." }]

/-- The number `10.5`, as `21 * 2 ^ (-1)`. -/
def tenAndAHalf : JSNumber := JSNumber.finite 21 (-1)

/-! ## Lemmas on the timeline builder -/

theorem le_clockAfterRest (config : TimingConfig) (t : Int) (b : Option String)
    (e : Exercise) : t ≤ clockAfterRest config t b e := by
  unfold clockAfterRest
  split
  · exact le_refl t
  · split_ifs with h₁ h₂
    · omega
    · exact le_refl t
    · exact le_refl t

theorem processOne_eq_some {timing : Timing} {i18n : I18n} {lang : String}
    {st st' : BuildState} {e : Exercise}
    (h : processOne timing i18n lang st e = some st') :
    ∃ p, st'.processedExercises = st.processedExercises ++ [p] ∧
      st'.currentTime = p.endTime ∧ st'.currentBlock = some e.block ∧
      TimedAs p e (clockAfterRest timing.config st.currentTime st.currentBlock e) := by
  unfold processOne at h
  split at h
  · exact absurd h (by simp)
  · split at h
    · exact absurd h (by simp)
    · split at h
      · exact absurd h (by simp)
      · simp only [Option.some.injEq] at h
        subst h
        exact ⟨_, rfl, rfl, rfl, rfl, rfl, rfl, rfl, rfl, rfl, rfl, rfl, rfl⟩

theorem processOne_isSome_iff (timing : Timing) (i18n : I18n) (lang : String)
    (st : BuildState) (e : Exercise) :
    (processOne timing i18n lang st e).isSome ↔ HasTexts i18n lang e := by
  unfold processOne HasTexts
  constructor
  · intro h
    split at h
    · simp at h
    · rename_i d hd
      split at h
      · simp at h
      · rename_i names hn
        split at h
        · simp at h
        · rename_i text ht
          exact ⟨d, names, text, hd, hn, ht⟩
  · rintro ⟨d, names, text, hd, hn, ht⟩
    simp [hd, hn, ht]

theorem foldlM_processOne_built (timing : Timing) (i18n : I18n) (lang : String) :
    ∀ (es : List Exercise) (st st' : BuildState),
      es.foldlM (processOne timing i18n lang) st = some st' →
      ∃ ps, st'.processedExercises = st.processedExercises ++ ps ∧
        Built timing.config st.currentTime st.currentBlock es ps st'.currentTime := by
  intro es
  induction es with
  | nil =>
    intro st st' h
    simp only [List.foldlM_nil, pure, Option.some.injEq] at h
    subst h
    exact ⟨[], by simp, rfl⟩
  | cons e es ih =>
    intro st st' h
    rw [List.foldlM_cons] at h
    cases hstep : processOne timing i18n lang st e with
    | none => rw [hstep] at h; simp at h
    | some st₁ =>
      rw [hstep] at h
      simp only [Option.some_bind, bind] at h
      obtain ⟨p, hp, ht, hb, htimed⟩ := processOne_eq_some hstep
      obtain ⟨ps, hps, hbuilt⟩ := ih st₁ st' h
      refine ⟨p :: ps, ?_, ?_⟩
      · rw [hps, hp]; simp
      · rw [ht, hb] at hbuilt
        exact ⟨htimed, hbuilt⟩

theorem processExercises_built {timing : Timing} {i18n : I18n} {lang : String}
    {ps : List ProcessedExercise} {total : Int}
    (h : processExercises timing i18n lang = some (ps, total)) :
    Built timing.config 0 none timing.exercises ps total := by
  unfold processExercises at h
  cases hf : timing.exercises.foldlM (processOne timing i18n lang)
      { currentTime := 0, currentBlock := none, processedExercises := [] } with
  | none => rw [hf] at h; simp at h
  | some st' =>
    rw [hf] at h
    simp only [Option.map_some', Option.some.injEq, Prod.mk.injEq] at h
    obtain ⟨ps', hps, hbuilt⟩ := foldlM_processOne_built timing i18n lang _ _ _ hf
    simp only [List.nil_append] at hps
    rw [← h.1, ← h.2, hps]
    exact hbuilt

theorem foldlM_processOne_isSome (timing : Timing) (i18n : I18n) (lang : String) :
    ∀ (es : List Exercise) (st : BuildState),
      (es.foldlM (processOne timing i18n lang) st).isSome ↔
        ∀ e ∈ es, HasTexts i18n lang e := by
  intro es
  induction es with
  | nil => intro st; simp [pure]
  | cons e es ih =>
    intro st
    rw [List.foldlM_cons]
    have hone := processOne_isSome_iff timing i18n lang st e
    cases hstep : processOne timing i18n lang st e with
    | none =>
      rw [hstep] at hone
      simp only [Option.isSome_none, Bool.false_eq_true, false_iff] at hone
      simp only [Option.none_bind, bind, Option.isSome_none, Bool.false_eq_true,
        List.mem_cons, forall_eq_or_imp, false_iff, not_and]
      intro h
      exact absurd h hone
    | some st₁ =>
      rw [hstep] at hone
      simp only [Option.isSome_some, true_iff] at hone
      simp only [Option.some_bind, bind, List.mem_cons, forall_eq_or_imp]
      rw [ih st₁]
      exact ⟨fun h => ⟨hone, h⟩, fun h => h.2⟩

/-- The builder succeeds exactly when every exercise has its texts. -/
theorem processExercises_isSome_iff (timing : Timing) (i18n : I18n) (lang : String) :
    (processExercises timing i18n lang).isSome ↔
      ∀ e ∈ timing.exercises, HasTexts i18n lang e := by
  unfold processExercises
  rw [Option.isSome_map']
  exact foldlM_processOne_isSome timing i18n lang _ _

theorem built_length (config : TimingConfig) :
    ∀ (es : List Exercise) (t : Int) (b : Option String) (ps : List ProcessedExercise)
      (total : Int), Built config t b es ps total → ps.length = es.length := by
  intro es
  induction es with
  | nil =>
    intro t b ps total h
    cases ps with
    | nil => rfl
    | cons p ps => exact absurd h (by simp [Built])
  | cons e es ih =>
    intro t b ps total h
    cases ps with
    | nil => exact absurd h (by simp [Built])
    | cons p ps =>
      simp only [Built] at h
      simp [ih _ _ _ _ h.2]

theorem built_timedAs (config : TimingConfig) :
    ∀ (es : List Exercise) (t : Int) (b : Option String) (ps : List ProcessedExercise)
      (total : Int), Built config t b es ps total →
      ∀ (i : Nat) (e : Exercise) (p : ProcessedExercise),
        es[i]? = some e → ps[i]? = some p → ∃ t', TimedAs p e t' := by
  intro es
  induction es with
  | nil => intro t b ps total _ i e p he; simp at he
  | cons e₀ es ih =>
    intro t b ps total h i e p he hp
    cases ps with
    | nil => simp at hp
    | cons p₀ ps =>
      simp only [Built] at h
      cases i with
      | zero =>
        simp only [List.getElem?_cons_zero, Option.some.injEq] at he hp
        subst he hp
        exact ⟨_, h.1⟩
      | succ i =>
        simp only [List.getElem?_cons_succ] at he hp
        exact ih _ _ _ _ h.2 i e p he hp

theorem built_head (config : TimingConfig) {es : List Exercise} {t : Int}
    {b : Option String} {p : ProcessedExercise} {ps : List ProcessedExercise} {total : Int}
    (h : Built config t b es (p :: ps) total) :
    ∃ e, e.block = p.block ∧ p.setupStartTime = clockAfterRest config t b e := by
  cases es with
  | nil => exact absurd h (by simp [Built])
  | cons e es =>
    simp only [Built] at h
    exact ⟨e, h.1.2.2.1.symm, h.1.2.2.2.2.2.1⟩

theorem built_adjacent (config : TimingConfig) :
    ∀ (es : List Exercise) (t : Int) (b : Option String) (ps : List ProcessedExercise)
      (total : Int), Built config t b es ps total →
      ∀ (i : Nat) (prev next : ProcessedExercise),
        ps[i]? = some prev → ps[i + 1]? = some next →
        ∃ e, e.block = next.block ∧
          next.setupStartTime = clockAfterRest config prev.endTime (some prev.block) e := by
  intro es
  induction es with
  | nil =>
    intro t b ps total h i prev next hp
    cases ps with
    | nil => simp at hp
    | cons p ps => exact absurd h (by simp [Built])
  | cons e₀ es ih =>
    intro t b ps total h i prev next hp hn
    cases ps with
    | nil => simp at hp
    | cons p₀ ps =>
      simp only [Built] at h
      cases i with
      | zero =>
        simp only [List.getElem?_cons_zero, Option.some.injEq] at hp
        subst hp
        simp only [zero_add, List.getElem?_cons_succ] at hn
        cases ps with
        | nil => simp at hn
        | cons p₁ ps =>
          simp only [List.getElem?_cons_zero, Option.some.injEq] at hn
          subst hn
          have hblock : p₀.block = e₀.block := h.1.2.2.1
          rw [hblock]
          exact built_head config h.2
      | succ i =>
        simp only [List.getElem?_cons_succ] at hp hn
        exact ih _ _ _ _ h.2 i prev next hp hn

theorem lookup_nonneg_of_forall (table : List (String × Int))
    (hall : ∀ kv ∈ table, 0 ≤ kv.2) :
    ∀ b r, table.lookup b = some r → 0 ≤ r := by
  induction table with
  | nil => intro b r h; simp at h
  | cons kv table ih =>
    intro b r h
    obtain ⟨k, v⟩ := kv
    rw [List.lookup_cons] at h
    split at h
    · simp only [Option.some.injEq] at h
      subst h
      exact hall (k, v) (List.mem_cons_self _ _)
    · exact ih (fun kv hkv => hall kv (List.mem_cons_of_mem _ hkv)) b r h

theorem clockAfterRest_some_of_nonneg (config : TimingConfig)
    (hnn : ∀ b r, config.block_rest_s.lookup b = some r → 0 ≤ r)
    (t : Int) (cb : String) (e : Exercise) :
    clockAfterRest config t (some cb) e =
      t + (if cb ≠ e.block then (config.block_rest_s.lookup cb).getD 0 else 0) := by
  simp only [clockAfterRest, blockRestSeconds]
  have h0 : 0 ≤ (config.block_rest_s.lookup cb).getD 0 := by
    cases hl : config.block_rest_s.lookup cb with
    | none => simp
    | some r => simpa using hnn cb r hl
  split_ifs with h₁ h₂
  · rfl
  · omega
  · omega

theorem built_total (config : TimingConfig)
    (hnn : ∀ b r, config.block_rest_s.lookup b = some r → 0 ≤ r) :
    ∀ (es : List Exercise) (t : Int) (b : Option String) (ps : List ProcessedExercise)
      (total : Int), Built config t b es ps total →
      total = (match es with
        | [] => t
        | e :: _ => clockAfterRest config t b e) + specWorkSum es + specRestSum config es := by
  intro es
  induction es with
  | nil =>
    intro t b ps total h
    cases ps with
    | nil => simpa [Built, specWorkSum, specRestSum] using h
    | cons p ps => exact absurd h (by simp [Built])
  | cons e es ih =>
    intro t b ps total h
    cases ps with
    | nil => exact absurd h (by simp [Built])
    | cons p ps =>
      simp only [Built] at h
      have hrec := ih _ _ _ _ h.2
      have hend : p.endTime = clockAfterRest config t b e + e.setup_s + e.work_s :=
        h.1.2.2.2.2.2.2.2.1
      cases es with
      | nil =>
        simp only [specWorkSum, specRestSum, List.map_nil, List.sum_nil, List.map_cons,
          List.sum_cons] at hrec ⊢
        omega
      | cons e₂ es =>
        simp only [clockAfterRest_some_of_nonneg config hnn] at hrec
        simp only [specWorkSum, specRestSum, List.map_cons, List.sum_cons] at hrec ⊢
        omega

theorem built_getLast (config : TimingConfig) :
    ∀ (es : List Exercise) (t : Int) (b : Option String) (ps : List ProcessedExercise)
      (total : Int), Built config t b es ps total →
      ∀ p, ps.getLast? = some p → total = p.endTime := by
  intro es
  induction es with
  | nil =>
    intro t b ps total h p hp
    cases ps with
    | nil => simp at hp
    | cons p ps => exact absurd h (by simp [Built])
  | cons e es ih =>
    intro t b ps total h p hp
    cases ps with
    | nil => simp at hp
    | cons p₀ ps =>
      simp only [Built] at h
      cases ps with
      | nil =>
        simp only [List.getLast?_singleton, Option.some.injEq] at hp
        subst hp
        cases es with
        | nil => simpa [Built] using h.2
        | cons e₂ es => exact absurd h.2 (by simp [Built])
      | cons p₁ ps =>
        rw [List.getLast?_cons_cons] at hp
        exact ih _ _ _ _ h.2 p hp

theorem built_ordered (config : TimingConfig) :
    ∀ (es : List Exercise) (t : Int) (b : Option String) (ps : List ProcessedExercise)
      (total : Int), Built config t b es ps total →
      (∀ e ∈ es, 0 ≤ e.setup_s ∧ 0 < e.work_s) →
      (∀ p ∈ ps, t ≤ p.setupStartTime ∧ p.setupStartTime ≤ p.workStartTime ∧
        p.workStartTime < p.endTime) ∧
      ps.Pairwise (fun a b => a.endTime ≤ b.setupStartTime) := by
  intro es
  induction es with
  | nil =>
    intro t b ps total h _
    cases ps with
    | nil => simp
    | cons p ps => exact absurd h (by simp [Built])
  | cons e es ih =>
    intro t b ps total h hpos
    cases ps with
    | nil => exact absurd h (by simp [Built])
    | cons p ps =>
      simp only [Built] at h
      obtain ⟨⟨_, _, _, _, _, hs, hw, he, _⟩, hrest⟩ := h
      have hle := le_clockAfterRest config t b e
      have hpe := hpos e (List.mem_cons_self _ _)
      obtain ⟨hin, hpw⟩ := ih _ _ _ _ hrest (fun e' he' => hpos e' (List.mem_cons_of_mem _ he'))
      refine ⟨?_, ?_⟩
      · intro q hq
        rcases List.mem_cons.1 hq with rfl | hq
        · refine ⟨?_, ?_, ?_⟩ <;> omega
        · obtain ⟨h₁, h₂, h₃⟩ := hin q hq
          refine ⟨?_, h₂, h₃⟩
          omega
      · rw [List.pairwise_cons]
        exact ⟨fun q hq => (hin q hq).1, hpw⟩

/-! ## Lemmas on JavaScript numbers -/

theorem JSNumber.add_ofInt (a b : Int) (h : SafeInt (a + b)) :
    (JSNumber.ofInt a).add (JSNumber.ofInt b) = JSNumber.ofInt (a + b) := by
  have hlt : (a + b).natAbs < 9007199254740992 := by
    unfold SafeInt at h
    omega
  simp only [JSNumber.ofInt, JSNumber.add, JSNumber.roundToDouble, min_self, sub_self,
    Int.toNat_zero, pow_zero, mul_one]
  rw [if_pos (by norm_num; exact hlt)]

theorem JSNumber.sub_ofInt (a b : Int) (h : SafeInt (a - b)) :
    (JSNumber.ofInt a).sub (JSNumber.ofInt b) = JSNumber.ofInt (a - b) := by
  have hlt : (a + -b).natAbs < 9007199254740992 := by
    unfold SafeInt at h
    omega
  simp only [JSNumber.ofInt, JSNumber.sub, JSNumber.neg, JSNumber.add, JSNumber.roundToDouble,
    min_self, sub_self, Int.toNat_zero, pow_zero, mul_one]
  rw [if_pos (by norm_num; exact hlt), sub_eq_add_neg]

theorem JSNumber.lt_ofInt (a b : Int) :
    (JSNumber.ofInt a).lt (JSNumber.ofInt b) = decide (a < b) := by
  simp [JSNumber.ofInt, JSNumber.lt]

theorem JSNumber.eq_ofInt (a b : Int) :
    (JSNumber.ofInt a).eq (JSNumber.ofInt b) = decide (a = b) := by
  simp [JSNumber.ofInt, JSNumber.eq]

theorem JSNumber.le_ofInt (a b : Int) :
    (JSNumber.ofInt a).le (JSNumber.ofInt b) = decide (a ≤ b) := by
  simp only [JSNumber.le, JSNumber.lt_ofInt, JSNumber.eq_ofInt]
  by_cases h₁ : a < b
  · have h₂ : a ≤ b := le_of_lt h₁
    simp [h₁, h₂]
  · by_cases h₂ : a = b
    · simp [h₂]
    · have h₃ : ¬ a ≤ b := by omega
      simp [h₁, h₂, h₃]

theorem upNextTest_ofInt (k setup_s work_s notice : Int)
    (h₁ : SafeInt (k - setup_s)) (h₂ : SafeInt (work_s - (k - setup_s))) :
    Js.upNextTest (JSNumber.ofInt k) (JSNumber.ofInt setup_s) (JSNumber.ofInt work_s)
        (JSNumber.ofInt notice)
      = decide (work_s - (k - setup_s) = notice) := by
  simp only [Js.upNextTest, JSNumber.sub_ofInt _ _ h₁, JSNumber.sub_ofInt _ _ h₂,
    JSNumber.eq_ofInt]

theorem JSNumber.truthy_ofInt (a : Int) :
    (JSNumber.ofInt a).truthy = decide (a ≠ 0) := by
  simp [JSNumber.ofInt, JSNumber.truthy]

theorem lookup_restTableJs (config : TimingConfig) (block : String) :
    (restTableJs config).lookup block
      = (config.block_rest_s.lookup block).map JSNumber.ofInt := by
  unfold restTableJs
  induction config.block_rest_s with
  | nil => rfl
  | cons kv rest ih =>
    obtain ⟨k, v⟩ := kv
    simp only [List.map_cons, List.lookup_cons]
    cases block == k with
    | true => rfl
    | false => exact ih

theorem blockRestSeconds_toJs (config : TimingConfig) (block : String) :
    Js.blockRestSeconds (restTableJs config) block
      = JSNumber.ofInt (blockRestSeconds config block) := by
  unfold Js.blockRestSeconds blockRestSeconds
  rw [lookup_restTableJs]
  cases config.block_rest_s.lookup block with
  | none => rfl
  | some r =>
    simp only [Option.map_some', Option.getD_some, JSNumber.truthy_ofInt]
    by_cases hr : r = 0
    · simp [hr]
    · simp [hr]

theorem clockAfterRest_toJs (config : TimingConfig) (t : Int) (b : Option String)
    (e : Exercise) (h : SafeInt (clockAfterRest config t b e)) :
    Js.clockAfterRest (restTableJs config) (JSNumber.ofInt t) b e.toJs
      = JSNumber.ofInt (clockAfterRest config t b e) := by
  unfold Js.clockAfterRest
  unfold clockAfterRest at h ⊢
  cases b with
  | none => rfl
  | some cb =>
    simp only [blockRestSeconds_toJs, JSNumber.lt_ofInt, Exercise.toJs] at h ⊢
    by_cases h₁ : cb = e.block
    · simp [h₁]
    · by_cases h₂ : blockRestSeconds config cb > 0
      · have h₂' : 0 < blockRestSeconds config cb := h₂
        simp only [ne_eq, h₁, not_false_eq_true, if_true, h₂, h₂', decide_True] at h ⊢
        exact JSNumber.add_ofInt _ _ h
      · have h₂' : ¬ 0 < blockRestSeconds config cb := h₂
        simp [h₁, h₂']

theorem processOne_toJs {timing : Timing} {i18n : I18n} {lang : String}
    {st st' : BuildState} {e : Exercise}
    (h : processOne timing i18n lang st e = some st')
    (hsafe : ∀ p ∈ st'.processedExercises, SafeEntry p) :
    Js.processOne (restTableJs timing.config) i18n lang st.toJs e.toJs = some st'.toJs := by
  obtain ⟨p, hps, -, -, htimed⟩ := processOne_eq_some h
  obtain ⟨-, -, -, -, -, hs, hw, he, hd⟩ := htimed
  obtain ⟨s₁, s₂, s₃, s₄⟩ := hsafe p (by rw [hps]; simp)
  rw [hs] at s₁
  rw [hw] at s₂
  rw [he] at s₃
  rw [hd] at s₄
  unfold processOne at h
  unfold Js.processOne
  simp only [BuildState.toJs]
  rw [clockAfterRest_toJs _ _ _ _ s₁]
  simp only [Exercise.toJs]
  split at h
  · exact absurd h (by simp)
  · rename_i d hd'
    split at h
    · exact absurd h (by simp)
    · rename_i names hn
      split at h
      · exact absurd h (by simp)
      · rename_i text ht
        simp only [Option.some.injEq] at h
        subst h
        simp only [hd', hn, ht, JSNumber.add_ofInt _ _ s₂, JSNumber.add_ofInt _ _ s₃,
          JSNumber.add_ofInt _ _ s₄, List.map_append, List.map_cons, List.map_nil,
          ProcessedExercise.toJs]

theorem foldlM_processOne_toJs (timing : Timing) (i18n : I18n) (lang : String) :
    ∀ (es : List Exercise) (st st' : BuildState),
      es.foldlM (processOne timing i18n lang) st = some st' →
      (∀ p ∈ st'.processedExercises, SafeEntry p) →
      (es.map Exercise.toJs).foldlM (Js.processOne (restTableJs timing.config) i18n lang)
        st.toJs = some st'.toJs := by
  intro es
  induction es with
  | nil =>
    intro st st' h _
    simp only [List.foldlM_nil, pure, Option.some.injEq] at h
    subst h
    rfl
  | cons e es ih =>
    intro st st' h hsafe
    rw [List.foldlM_cons] at h
    cases h₁ : processOne timing i18n lang st e with
    | none => rw [h₁] at h; exact absurd h (by simp [bind, Option.bind])
    | some st₁ =>
      rw [h₁] at h
      have h₂ : es.foldlM (processOne timing i18n lang) st₁ = some st' := h
      obtain ⟨ps, hps, -⟩ := foldlM_processOne_built timing i18n lang es st₁ st' h₂
      have hsafe₁ : ∀ p ∈ st₁.processedExercises, SafeEntry p := by
        intro p hp
        exact hsafe p (by rw [hps]; exact List.mem_append_left _ hp)
      rw [List.map_cons, List.foldlM_cons, processOne_toJs h₁ hsafe₁]
      exact ih st₁ st' h₂ hsafe

/-- On whole-number durations whose exact times are all safe integers, the
builder over numbers computes what the whole-number builder computes. -/
theorem processExercises_toJs {timing : Timing} {i18n : I18n} {lang : String}
    {ps : List ProcessedExercise} {total : Int}
    (h : processExercises timing i18n lang = some (ps, total))
    (hsafe : ∀ p ∈ ps, SafeEntry p) :
    Js.processExercises (restTableJs timing.config) (timing.exercises.map Exercise.toJs)
        i18n lang
      = some (ps.map ProcessedExercise.toJs, JSNumber.ofInt total) := by
  unfold processExercises at h
  unfold Js.processExercises
  cases hf : timing.exercises.foldlM (processOne timing i18n lang)
      { currentTime := 0, currentBlock := none, processedExercises := [] } with
  | none => rw [hf] at h; exact absurd h (by simp)
  | some st' =>
    rw [hf] at h
    simp only [Option.map_some', Option.some.injEq, Prod.mk.injEq] at h
    obtain ⟨h₁, h₂⟩ := h
    subst h₁
    subst h₂
    have := foldlM_processOne_toJs timing i18n lang timing.exercises _ st' hf hsafe
    simp only [BuildState.toJs, List.map_nil] at this
    rw [this]
    rfl

/-! ## Timeline builder: the claims -/

/-- C1 (timeline ordering).  In the sequence built by `processExercises` the
first entry starts at 0, and for every adjacent pair `prev`, `next`:
`next.setupStartTime = prev.endTime` when both are in the same block or the
rest entry of `prev.block` is missing or 0, and
`next.setupStartTime = prev.endTime + R` when the blocks differ and the rest
entry `R` of `prev.block` is positive. -/
theorem processExercises_timeline_ordering (timing : Timing) (i18n : I18n) (lang : String)
    (ps : List ProcessedExercise) (total : Int)
    (h : processExercises timing i18n lang = some (ps, total)) :
    (∀ p, ps[0]? = some p → p.setupStartTime = 0) ∧
    ∀ (i : Nat) (prev next : ProcessedExercise),
      ps[i]? = some prev → ps[i + 1]? = some next →
      ((prev.block = next.block ∨ timing.config.block_rest_s.lookup prev.block = none ∨
          timing.config.block_rest_s.lookup prev.block = some 0) →
        next.setupStartTime = prev.endTime) ∧
      (∀ R, prev.block ≠ next.block →
        timing.config.block_rest_s.lookup prev.block = some R → 0 < R →
        next.setupStartTime = prev.endTime + R) := by
  have hb := processExercises_built h
  refine ⟨?_, ?_⟩
  · intro p hp
    cases ps with
    | nil => simp at hp
    | cons p₀ ps =>
      simp only [List.getElem?_cons_zero, Option.some.injEq] at hp
      subst hp
      obtain ⟨e, _, hs⟩ := built_head timing.config hb
      simpa [clockAfterRest] using hs
  · intro i prev next hp hn
    obtain ⟨e, hblock, hs⟩ := built_adjacent timing.config _ _ _ _ _ hb i prev next hp hn
    simp only [clockAfterRest, blockRestSeconds, hblock] at hs
    refine ⟨?_, ?_⟩
    · rintro (hsame | hnone | hzero)
      · simpa [hsame] using hs
      · simpa [hnone] using hs
      · simpa [hzero] using hs
    · intro R hne hR hpos
      simpa [hne, hR, hpos] using hs

/-- Witness for C1: A(setup 0, work 2), B(setup 1, work 3), `rest[A] = 5` gives
the offsets (0,0,2) and (7,8,11). -/
theorem processExercises_timeline_ordering_witness :
    processExercises demoTiming demoI18n "it" = some (demoProcessed, 11) ∧
    demoProcessed.map (fun p => (p.setupStartTime, p.workStartTime, p.endTime))
      = [(0, 0, 2), (7, 8, 11)] ∧
    ((∀ p, demoProcessed[0]? = some p → p.setupStartTime = 0) ∧
    ∀ (i : Nat) (prev next : ProcessedExercise),
      demoProcessed[i]? = some prev → demoProcessed[i + 1]? = some next →
      ((prev.block = next.block ∨ demoTiming.config.block_rest_s.lookup prev.block = none ∨
          demoTiming.config.block_rest_s.lookup prev.block = some 0) →
        next.setupStartTime = prev.endTime) ∧
      (∀ R, prev.block ≠ next.block →
        demoTiming.config.block_rest_s.lookup prev.block = some R → 0 < R →
        next.setupStartTime = prev.endTime + R)) :=
  ⟨by decide, by decide,
    processExercises_timeline_ordering demoTiming demoI18n "it" demoProcessed 11 (by decide)⟩

/-- C2, refuted as stated: the file `hugeTiming` has whole-number durations and
a non-negative rest table, the exact sum of its durations and rests is
`2 ^ 53 + 3`, and `processExercises` leaves `totalWorkoutSeconds = 2 ^ 53`
(held as `2 ^ 52 * 2`): each `+ 1` past `2 ^ 53` is rounded away. -/
theorem processExercises_total_rounds :
    (∀ b r, hugeTiming.config.block_rest_s.lookup b = some r → 0 ≤ r) ∧
    Js.processExercises (restTableJs hugeTiming.config)
        (hugeTiming.exercises.map Exercise.toJs) demoI18n "it"
      = some ([hugeA, hugeB], JSNumber.finite 4503599627370496 1) ∧
    (JSNumber.finite 4503599627370496 1).eq (JSNumber.ofInt 9007199254740992) = true ∧
    specWorkSum hugeTiming.exercises + specRestSum hugeTiming.config hugeTiming.exercises
      = 9007199254740995 ∧
    (JSNumber.finite 4503599627370496 1).eq
      (JSNumber.ofInt (specWorkSum hugeTiming.exercises
        + specRestSum hugeTiming.config hugeTiming.exercises)) = false :=
  ⟨lookup_nonneg_of_forall _ (by decide), by decide, by decide, by decide, by decide⟩

/-- C2 as amended (total duration).  With an empty exercise list
`processExercises` yields the empty sequence and total 0.  For whole-number
durations and rests, no rest negative, which are safe integers as is every
exact time of the timeline (`ps`, `total` being the exact timeline): the
builder over numbers returns exactly `ps` and `total`, `total` is the sum of
`setup_s + work_s` over all exercises plus the rest entries of the block
transitions taken, and it is the `endTime` of the last entry (no rest after
the last exercise). -/
theorem processExercises_total (timing : Timing) (i18n : I18n) (lang : String) :
    (timing.exercises = [] →
      Js.processExercises (restTableJs timing.config) (timing.exercises.map Exercise.toJs)
        i18n lang = some ([], JSNumber.ofInt 0)) ∧
    ∀ (ps : List ProcessedExercise) (total : Int),
      processExercises timing i18n lang = some (ps, total) →
      (∀ b r, timing.config.block_rest_s.lookup b = some r → 0 ≤ r) →
      SafeTimeline timing ps →
      Js.processExercises (restTableJs timing.config) (timing.exercises.map Exercise.toJs)
        i18n lang = some (ps.map ProcessedExercise.toJs, JSNumber.ofInt total) ∧
      total = specWorkSum timing.exercises + specRestSum timing.config timing.exercises ∧
      (∀ p, (ps.map ProcessedExercise.toJs).getLast? = some p →
        JSNumber.ofInt total = p.endTime) := by
  refine ⟨?_, ?_⟩
  · intro hnil
    simp [Js.processExercises, hnil, pure]
  · intro ps total h hnn hsafe
    have hb := processExercises_built h
    refine ⟨processExercises_toJs h hsafe.2.2, ?_, ?_⟩
    · have ht := built_total timing.config hnn _ _ _ _ _ hb
      cases hes : timing.exercises with
      | nil => rw [hes] at ht; simpa using ht
      | cons e es =>
        rw [hes] at ht
        simpa [clockAfterRest] using ht
    · intro p hp
      rw [List.getLast?_map] at hp
      cases hl : ps.getLast? with
      | none => rw [hl] at hp; exact absurd hp (by simp)
      | some q =>
        rw [hl] at hp
        simp only [Option.map_some', Option.some.injEq] at hp
        subst hp
        rw [built_getLast timing.config _ _ _ _ _ hb q hl]
        rfl

/-- Witness for the amended C2: the scenario has total 11 = (0 + 2) + (1 + 3)
+ 5, the end of its last entry, over numbers as over whole numbers; the empty
list builds `([], 0)`. -/
theorem processExercises_total_witness :
    Js.processExercises (restTableJs demoTiming.config)
      (({ demoTiming with exercises := [] } : Timing).exercises.map Exercise.toJs)
      demoI18n "it" = some ([], JSNumber.ofInt 0) ∧
    processExercises demoTiming demoI18n "it" = some (demoProcessed, 11) ∧
    SafeTimeline demoTiming demoProcessed ∧
    Js.processExercises (restTableJs demoTiming.config)
      (demoTiming.exercises.map Exercise.toJs) demoI18n "it"
      = some (demoProcessed.map ProcessedExercise.toJs, JSNumber.ofInt 11) ∧
    (11 : Int) = specWorkSum demoTiming.exercises
      + specRestSum demoTiming.config demoTiming.exercises ∧
    (∀ p, (demoProcessed.map ProcessedExercise.toJs).getLast? = some p →
      JSNumber.ofInt 11 = p.endTime) :=
  ⟨(processExercises_total { demoTiming with exercises := [] } demoI18n "it").1 rfl,
    by decide, by decide,
    (processExercises_total demoTiming demoI18n "it").2 demoProcessed 11 (by decide)
      (lookup_nonneg_of_forall _ (by decide)) (by decide)⟩

/-- C3 (one entry per exercise).  The sequence built by `processExercises` has
one entry per input exercise, in input order, with `id`, `n`, `block`,
`setup_s` and `work_s` copied, `workStartTime = setupStartTime + setup_s`,
`endTime = workStartTime + work_s` and `totalDuration = setup_s + work_s`. -/
theorem processExercises_entries (timing : Timing) (i18n : I18n) (lang : String)
    (ps : List ProcessedExercise) (total : Int)
    (h : processExercises timing i18n lang = some (ps, total)) :
    ps.length = timing.exercises.length ∧
    ∀ (i : Nat) (e : Exercise) (p : ProcessedExercise),
      timing.exercises[i]? = some e → ps[i]? = some p →
      p.id = e.id ∧ p.n = e.n ∧ p.block = e.block ∧
      p.setup_s = e.setup_s ∧ p.work_s = e.work_s ∧
      p.workStartTime = p.setupStartTime + p.setup_s ∧
      p.endTime = p.workStartTime + p.work_s ∧
      p.totalDuration = p.setup_s + p.work_s := by
  have hb := processExercises_built h
  refine ⟨built_length timing.config _ _ _ _ _ hb, ?_⟩
  intro i e p he hp
  obtain ⟨t', h₁, h₂, h₃, h₄, h₅, h₆, h₇, h₈, h₉⟩ :=
    built_timedAs timing.config _ _ _ _ _ hb i e p he hp
  refine ⟨h₁, h₂, h₃, h₄, h₅, ?_, ?_, ?_⟩
  · rw [h₇, h₆, h₄]
  · rw [h₈, h₇, h₅]
  · rw [h₉, h₄, h₅]

/-- Witness for C3 on the scenario A, B. -/
theorem processExercises_entries_witness :
    processExercises demoTiming demoI18n "it" = some (demoProcessed, 11) ∧
    (demoProcessed.length = demoTiming.exercises.length ∧
    ∀ (i : Nat) (e : Exercise) (p : ProcessedExercise),
      demoTiming.exercises[i]? = some e → demoProcessed[i]? = some p →
      p.id = e.id ∧ p.n = e.n ∧ p.block = e.block ∧
      p.setup_s = e.setup_s ∧ p.work_s = e.work_s ∧
      p.workStartTime = p.setupStartTime + p.setup_s ∧
      p.endTime = p.workStartTime + p.work_s ∧
      p.totalDuration = p.setup_s + p.work_s) :=
  ⟨by decide,
    processExercises_entries demoTiming demoI18n "it" demoProcessed 11 (by decide)⟩

/-- C4, refuted as stated: in the file `hugeTiming` both exercises have
`setup_s ≥ 0` and `work_s > 0`, and the entry built for B has
`workStartTime = endTime` (both `2 ^ 53`), so `workStartTime < endTime` fails. -/
theorem processExercises_overlap_when_rounded :
    (∀ e ∈ hugeTiming.exercises, 0 ≤ e.setup_s ∧ 0 < e.work_s) ∧
    Js.processExercises (restTableJs hugeTiming.config)
        (hugeTiming.exercises.map Exercise.toJs) demoI18n "it"
      = some ([hugeA, hugeB], JSNumber.finite 4503599627370496 1) ∧
    hugeB.workStartTime.lt hugeB.endTime = false ∧
    hugeB.workStartTime.eq hugeB.endTime = true := by
  decide

/-- C4 as amended (ordered, non-overlapping).  For whole-number durations and
rests with every `setup_s ≥ 0` and `work_s > 0`, which are safe integers as is
every exact time of the timeline: the builder over numbers returns the exact
timeline, and in it, for all positions `i < j`,
`ps[i].endTime <= ps[j].setupStartTime`, and inside each entry
`setupStartTime <= workStartTime < endTime`, whatever the rest table. -/
theorem processExercises_nonoverlapping (timing : Timing) (i18n : I18n) (lang : String)
    (ps : List ProcessedExercise) (total : Int)
    (h : processExercises timing i18n lang = some (ps, total))
    (hsafe : SafeTimeline timing ps)
    (hpos : ∀ e ∈ timing.exercises, 0 ≤ e.setup_s ∧ 0 < e.work_s) :
    Js.processExercises (restTableJs timing.config) (timing.exercises.map Exercise.toJs)
      i18n lang = some (ps.map ProcessedExercise.toJs, JSNumber.ofInt total) ∧
    (∀ (i j : Nat) (a b : Js.ProcessedExercise), i < j →
      (ps.map ProcessedExercise.toJs)[i]? = some a →
      (ps.map ProcessedExercise.toJs)[j]? = some b →
      a.endTime.le b.setupStartTime = true) ∧
    (∀ p ∈ ps.map ProcessedExercise.toJs,
      p.setupStartTime.le p.workStartTime = true ∧ p.workStartTime.lt p.endTime = true) := by
  have hb := processExercises_built h
  obtain ⟨hin, hpw⟩ := built_ordered timing.config _ _ _ _ _ hb hpos
  refine ⟨processExercises_toJs h hsafe.2.2, ?_, ?_⟩
  · intro i j a b hij ha hb'
    rw [List.getElem?_map] at ha hb'
    cases hpi : ps[i]? with
    | none => rw [hpi] at ha; exact absurd ha (by simp)
    | some x =>
      cases hpj : ps[j]? with
      | none => rw [hpj] at hb'; exact absurd hb' (by simp)
      | some y =>
        rw [hpi] at ha
        rw [hpj] at hb'
        simp only [Option.map_some', Option.some.injEq] at ha hb'
        subst ha
        subst hb'
        obtain ⟨hi, rfl⟩ := List.getElem?_eq_some.1 hpi
        obtain ⟨hj, rfl⟩ := List.getElem?_eq_some.1 hpj
        have hle := List.pairwise_iff_getElem.1 hpw i j hi hj hij
        simp only [ProcessedExercise.toJs, JSNumber.le, JSNumber.lt_ofInt, JSNumber.eq_ofInt,
          Bool.or_eq_true, decide_eq_true_eq]
        omega
  · intro p hp
    obtain ⟨q, hq, rfl⟩ := List.mem_map.1 hp
    have hq' := (hin q hq).2
    simp only [ProcessedExercise.toJs, JSNumber.le, JSNumber.lt_ofInt, JSNumber.eq_ofInt,
      Bool.or_eq_true, decide_eq_true_eq]
    omega

/-- Witness for the amended C4 on the scenario A, B. -/
theorem processExercises_nonoverlapping_witness :
    processExercises demoTiming demoI18n "it" = some (demoProcessed, 11) ∧
    SafeTimeline demoTiming demoProcessed ∧
    (∀ e ∈ demoTiming.exercises, 0 ≤ e.setup_s ∧ 0 < e.work_s) ∧
    (Js.processExercises (restTableJs demoTiming.config)
      (demoTiming.exercises.map Exercise.toJs) demoI18n "it"
      = some (demoProcessed.map ProcessedExercise.toJs, JSNumber.ofInt 11) ∧
    (∀ (i j : Nat) (a b : Js.ProcessedExercise), i < j →
      (demoProcessed.map ProcessedExercise.toJs)[i]? = some a →
      (demoProcessed.map ProcessedExercise.toJs)[j]? = some b →
      a.endTime.le b.setupStartTime = true) ∧
    (∀ p ∈ demoProcessed.map ProcessedExercise.toJs,
      p.setupStartTime.le p.workStartTime = true ∧ p.workStartTime.lt p.endTime = true)) :=
  ⟨by decide, by decide, by decide,
    processExercises_nonoverlapping demoTiming demoI18n "it" demoProcessed 11
      (by decide) (by decide) (by decide)⟩

/-! ## Lemmas on the state machine -/

theorem exerciseAt_natCast (ps : List ProcessedExercise) (i : Nat) :
    exerciseAt ps (i : Int) = ps[i]? := by
  unfold exerciseAt
  have h : ¬ ((i : Int) < 0) := by omega
  simp [h]

theorem exerciseAt_natCast_succ (ps : List ProcessedExercise) (i : Nat) :
    exerciseAt ps ((i : Int) + 1) = ps[i + 1]? := by
  have h := exerciseAt_natCast ps (i + 1)
  simpa using h

theorem exerciseAt_length_sub_one (ps : List ProcessedExercise) (hne : ps ≠ []) :
    exerciseAt ps ((ps.length : Int) - 1) = some (ps.getLast hne) := by
  have hpos : 0 < ps.length := List.length_pos.2 hne
  have hcast : ((ps.length : Int) - 1) = ((ps.length - 1 : Nat) : Int) := by omega
  rw [hcast, exerciseAt_natCast, ← List.getLast?_eq_getElem?, List.getLast?_eq_getLast _ hne]

/-- In phase `exercise`, a tick on which the current exercise is not over only
advances the two counters. -/
theorem tick_exercise_running (config : TimingConfig) (ps : List ProcessedExercise)
    (s : State) (cur : ProcessedExercise)
    (hphase : s.currentPhase = Phase.exercise)
    (hcur : exerciseAt ps s.currentExerciseIndex = some cur)
    (hless : s.exerciseElapsedSeconds + 1 < cur.totalDuration) :
    tick config ps s =
      { s with totalElapsedSeconds := s.totalElapsedSeconds + 1
               exerciseElapsedSeconds := s.exerciseElapsedSeconds + 1 } := by
  have hnot : ¬ (s.exerciseElapsedSeconds + 1 ≥ cur.totalDuration) := by omega
  simp [tick, handlePhaseTransitions, hphase, hcur, hnot]

/-- In phase `exercise`, a tick on which the current exercise is over runs
`completeCurrentExercise`. -/
theorem tick_exercise_done (config : TimingConfig) (ps : List ProcessedExercise)
    (s : State) (cur : ProcessedExercise)
    (hphase : s.currentPhase = Phase.exercise)
    (hcur : exerciseAt ps s.currentExerciseIndex = some cur)
    (hdone : s.exerciseElapsedSeconds + 1 ≥ cur.totalDuration) :
    tick config ps s =
      completeCurrentExercise config ps
        { s with totalElapsedSeconds := s.totalElapsedSeconds + 1
                 exerciseElapsedSeconds := s.exerciseElapsedSeconds + 1 } := by
  simp [tick, handlePhaseTransitions, hphase, hcur, hdone]

theorem completeCurrentExercise_totalElapsedSeconds (config : TimingConfig)
    (ps : List ProcessedExercise) (s : State) :
    (completeCurrentExercise config ps s).totalElapsedSeconds = s.totalElapsedSeconds := by
  unfold completeCurrentExercise
  dsimp only
  split_ifs
  · rfl
  · split
    · split_ifs <;> rfl
    · rfl

/-- Every tick adds exactly one to `totalElapsedSeconds`. -/
theorem tick_totalElapsedSeconds (config : TimingConfig) (ps : List ProcessedExercise)
    (s : State) :
    (tick config ps s).totalElapsedSeconds = s.totalElapsedSeconds + 1 := by
  unfold tick handlePhaseTransitions
  split_ifs
  · rfl
  · rfl
  · split
    · rfl
    · split_ifs
      · rw [completeCurrentExercise_totalElapsedSeconds]
      · rfl
  · rfl

/-- The `restTimer` callback never touches `exerciseElapsedSeconds`. -/
theorem restTimerCallback_exerciseElapsedSeconds (s : State) :
    (restTimerCallback s).exerciseElapsedSeconds = s.exerciseElapsedSeconds := by
  unfold restTimerCallback
  dsimp only
  split
  · rfl
  · split_ifs <;> rfl

/-- A tick delivered during `block_rest` advances both counters and nothing
else. -/
theorem tick_block_rest (config : TimingConfig) (ps : List ProcessedExercise)
    (s : State) (hphase : s.currentPhase = Phase.block_rest) :
    tick config ps s =
      { s with totalElapsedSeconds := s.totalElapsedSeconds + 1
               exerciseElapsedSeconds := s.exerciseElapsedSeconds + 1 } := by
  simp [tick, handlePhaseTransitions, hphase]

/-! ## State machine: the claims -/

/-- C5 (advance to the next exercise).  In phase `exercise` at a non-last
index `i`, on the tick that finishes exercise `i`: if the blocks of `i` and
`i + 1` differ and the rest entry `R` of the block of `i` is positive, the
tick yields phase `block_rest` with `blockRestRemaining = R`, index `i + 1`
and `exerciseElapsedSeconds = 0`; if the blocks are equal or the rest entry is
missing or not positive, it stays in `exercise` with index `i + 1` and
`exerciseElapsedSeconds = 0`. -/
theorem tick_advances_to_next (config : TimingConfig) (ps : List ProcessedExercise)
    (s : State) (i : Nat) (cur next : ProcessedExercise)
    (hphase : s.currentPhase = Phase.exercise)
    (hidx : s.currentExerciseIndex = (i : Int))
    (hcur : ps[i]? = some cur) (hnext : ps[i + 1]? = some next)
    (hdone : s.exerciseElapsedSeconds + 1 ≥ cur.totalDuration) :
    (∀ R, cur.block ≠ next.block → config.block_rest_s.lookup cur.block = some R → 0 < R →
      (tick config ps s).currentPhase = Phase.block_rest ∧
      (tick config ps s).blockRestRemaining = some R ∧
      (tick config ps s).currentExerciseIndex = (i : Int) + 1 ∧
      (tick config ps s).exerciseElapsedSeconds = 0) ∧
    ((cur.block = next.block ∨ ∀ R, config.block_rest_s.lookup cur.block = some R → R ≤ 0) →
      (tick config ps s).currentPhase = Phase.exercise ∧
      (tick config ps s).currentExerciseIndex = (i : Int) + 1 ∧
      (tick config ps s).exerciseElapsedSeconds = 0) := by
  have hcur' : exerciseAt ps s.currentExerciseIndex = some cur := by
    rw [hidx, exerciseAt_natCast]; exact hcur
  rw [tick_exercise_done config ps s cur hphase hcur' hdone]
  have hlen : i + 1 < ps.length := (List.getElem?_eq_some.1 hnext).1
  have hlt : ¬ ((i : Int) + 1 ≥ (ps.length : Int)) := by omega
  have hprev : exerciseAt ps ((i : Int) + 1 - 1) = some cur := by
    rw [add_sub_cancel_right, exerciseAt_natCast]; exact hcur
  have hnx : exerciseAt ps ((i : Int) + 1) = some next := by
    rw [exerciseAt_natCast_succ]; exact hnext
  refine ⟨?_, ?_⟩
  · intro R hne hR hpos
    have hrest : blockRestSeconds config cur.block = R := by simp [blockRestSeconds, hR]
    simp [completeCurrentExercise, hidx, hlt, hprev, exerciseAt_natCast, hcur, hnx, hne, hrest, hpos, startBlockRest]
  · rintro (hsame | hnone)
    · simp [completeCurrentExercise, hidx, hlt, hprev, exerciseAt_natCast, hcur, hnx, hsame, startCurrentExercise, hphase]
    · have hrest : ¬ (blockRestSeconds config cur.block > 0) := by
        unfold blockRestSeconds
        cases hl : config.block_rest_s.lookup cur.block with
        | none => simp
        | some R => have := hnone R hl; simpa using this
      by_cases hb : cur.block = next.block
      · simp [completeCurrentExercise, hidx, hlt, hprev, exerciseAt_natCast, hcur, hnx, hb, startCurrentExercise, hphase]
      · simp [completeCurrentExercise, hidx, hlt, hprev, exerciseAt_natCast, hcur, hnx, hb, hrest, startCurrentExercise,
          hphase]

/-- Witness for C5: in the scenario, one second into exercise A (index 0) the
next tick enters `block_rest` with 5 seconds remaining at index 1. -/
theorem tick_advances_to_next_witness :
    (demoAt 4).currentPhase = Phase.exercise ∧
    (demoAt 4).currentExerciseIndex = ((0 : Nat) : Int) ∧
    demoProcessed[0]? = some procA ∧ demoProcessed[0 + 1]? = some procB ∧
    (demoAt 4).exerciseElapsedSeconds + 1 ≥ procA.totalDuration ∧
    ((tick demoTiming.config demoProcessed (demoAt 4)).currentPhase = Phase.block_rest ∧
      (tick demoTiming.config demoProcessed (demoAt 4)).blockRestRemaining = some 5 ∧
      (tick demoTiming.config demoProcessed (demoAt 4)).currentExerciseIndex = ((0 : Nat) : Int) + 1 ∧
      (tick demoTiming.config demoProcessed (demoAt 4)).exerciseElapsedSeconds = 0) :=
  ⟨by decide, by decide, by decide, by decide, by decide,
    (tick_advances_to_next demoTiming.config demoProcessed (demoAt 4) 0 procA procB
      (by decide) (by decide) (by decide) (by decide) (by decide)).1 5
      (by decide) (by decide) (by decide)⟩

/-- C6 (completion).  For a non-empty sequence, in phase `exercise` at the last
index, the tick that finishes that exercise yields phase `complete` with
`isRunning = false`, `currentExerciseIndex` equal to the length of the
sequence, `exerciseElapsedSeconds = 0`, and the main interval stopped. -/
theorem tick_completes_workout (config : TimingConfig) (ps : List ProcessedExercise)
    (s : State) (hne : ps ≠ [])
    (hphase : s.currentPhase = Phase.exercise)
    (hidx : s.currentExerciseIndex = (ps.length : Int) - 1)
    (hdone : s.exerciseElapsedSeconds + 1 ≥ (ps.getLast hne).totalDuration) :
    (tick config ps s).currentPhase = Phase.complete ∧
    (tick config ps s).isRunning = false ∧
    (tick config ps s).currentExerciseIndex = (ps.length : Int) ∧
    (tick config ps s).exerciseElapsedSeconds = 0 ∧
    (tick config ps s).timer = false := by
  have hcur : exerciseAt ps s.currentExerciseIndex = some (ps.getLast hne) := by
    rw [hidx, exerciseAt_length_sub_one ps hne]
  rw [tick_exercise_done config ps s _ hphase hcur hdone]
  simp [completeCurrentExercise, hidx, completeWorkout, stopTimer]

/-- Witness for C6: in the scenario, ten seconds after `start()` the machine is
in exercise B (the last index) and the next tick completes the workout. -/
theorem tick_completes_workout_witness :
    (demoAt 10).currentPhase = Phase.exercise ∧
    (demoAt 10).currentExerciseIndex = (demoProcessed.length : Int) - 1 ∧
    (demoAt 10).exerciseElapsedSeconds + 1 ≥
      (demoProcessed.getLast (List.cons_ne_nil _ _)).totalDuration ∧
    ((tick demoTiming.config demoProcessed (demoAt 10)).currentPhase = Phase.complete ∧
    (tick demoTiming.config demoProcessed (demoAt 10)).isRunning = false ∧
    (tick demoTiming.config demoProcessed (demoAt 10)).currentExerciseIndex
      = (demoProcessed.length : Int) ∧
    (tick demoTiming.config demoProcessed (demoAt 10)).exerciseElapsedSeconds = 0 ∧
    (tick demoTiming.config demoProcessed (demoAt 10)).timer = false) :=
  ⟨by decide, by decide, by decide,
    tick_completes_workout demoTiming.config demoProcessed (demoAt 10) (List.cons_ne_nil _ _)
      (by decide) (by decide) (by decide)⟩

/-- C7 (a tick inside an exercise).  In phase `exercise` with a valid index and
`exerciseElapsedSeconds + 1 < totalDuration` of the current exercise, a tick
adds exactly 1 to `totalElapsedSeconds` and to `exerciseElapsedSeconds` and
leaves `currentPhase`, `currentExerciseIndex`, `isRunning` and `isPaused`
unchanged; and no tick, from any state, decreases `totalElapsedSeconds`. -/
theorem tick_exercise_frame (config : TimingConfig) (ps : List ProcessedExercise)
    (s : State) (cur : ProcessedExercise)
    (hphase : s.currentPhase = Phase.exercise)
    (hcur : exerciseAt ps s.currentExerciseIndex = some cur)
    (hless : s.exerciseElapsedSeconds + 1 < cur.totalDuration) :
    (tick config ps s).totalElapsedSeconds = s.totalElapsedSeconds + 1 ∧
    (tick config ps s).exerciseElapsedSeconds = s.exerciseElapsedSeconds + 1 ∧
    (tick config ps s).currentPhase = s.currentPhase ∧
    (tick config ps s).currentExerciseIndex = s.currentExerciseIndex ∧
    (tick config ps s).isRunning = s.isRunning ∧
    (tick config ps s).isPaused = s.isPaused ∧
    (∀ s' : State, s'.totalElapsedSeconds ≤ (tick config ps s').totalElapsedSeconds) := by
  rw [tick_exercise_running config ps s cur hphase hcur hless]
  refine ⟨rfl, rfl, rfl, rfl, rfl, rfl, ?_⟩
  intro s'
  rw [tick_totalElapsedSeconds]
  omega

/-- Witness for C7: in the scenario, three seconds after `start()` exercise A
has just begun and the next tick only advances the counters. -/
theorem tick_exercise_frame_witness :
    (demoAt 3).currentPhase = Phase.exercise ∧
    exerciseAt demoProcessed (demoAt 3).currentExerciseIndex = some procA ∧
    (demoAt 3).exerciseElapsedSeconds + 1 < procA.totalDuration ∧
    ((tick demoTiming.config demoProcessed (demoAt 3)).totalElapsedSeconds
      = (demoAt 3).totalElapsedSeconds + 1 ∧
    (tick demoTiming.config demoProcessed (demoAt 3)).exerciseElapsedSeconds
      = (demoAt 3).exerciseElapsedSeconds + 1 ∧
    (tick demoTiming.config demoProcessed (demoAt 3)).currentPhase = (demoAt 3).currentPhase ∧
    (tick demoTiming.config demoProcessed (demoAt 3)).currentExerciseIndex
      = (demoAt 3).currentExerciseIndex ∧
    (tick demoTiming.config demoProcessed (demoAt 3)).isRunning = (demoAt 3).isRunning ∧
    (tick demoTiming.config demoProcessed (demoAt 3)).isPaused = (demoAt 3).isPaused ∧
    (∀ s' : State,
      s'.totalElapsedSeconds ≤ (tick demoTiming.config demoProcessed s').totalElapsedSeconds)) :=
  ⟨by decide, by decide, by decide,
    tick_exercise_frame demoTiming.config demoProcessed (demoAt 3) procA
      (by decide) (by decide) (by decide)⟩

/-- C8, evaluated on the scenario of the specification (A: setup 0, work 2;
B: setup 1, work 3; `rest[A] = 5`; countdown 3).  The timeline has total 11, so
the claim expects `complete` after 3 + 11 = 14 seconds.  Driven once per second
the machine is in `complete` from second 11 on, with `totalElapsedSeconds = 8`:
exercise B, whose timeline slot is 7 to 11, is cut to one tick.  After
completion no timer is live and further seconds change nothing. -/
theorem demo_completes_at_second_11 :
    processExercises demoTiming demoI18n "it" = some (demoProcessed, 11) ∧
    demoTiming.config.countdown_s = 3 ∧
    (∀ k, k ≤ 14 → ((demoAt k).currentPhase = Phase.complete ↔ 11 ≤ k)) ∧
    (demoAt 11).totalElapsedSeconds = 8 ∧
    (demoAt 11).currentExerciseIndex = 2 ∧
    second demoTiming.config demoProcessed (demoAt 11) = demoAt 11 := by
  decide

/-- C9, evaluated on the scenario of the specification.  Nine seconds after
`start()` the machine is in `block_rest` with one second remaining; at second
10 the rest has ended (`blockRestRemaining = 0`) and the machine is back in
`exercise` at index 1 with `exerciseElapsedSeconds = 5`, not 0; exercise B has
`totalDuration = 4`, and the very next second completes the workout. -/
theorem demo_rest_end_keeps_elapsed :
    (demoAt 9).currentPhase = Phase.block_rest ∧
    (demoAt 9).blockRestRemaining = some 1 ∧
    (demoAt 10).currentPhase = Phase.exercise ∧
    (demoAt 10).blockRestRemaining = some 0 ∧
    (demoAt 10).currentExerciseIndex = 1 ∧
    (demoAt 10).exerciseElapsedSeconds = 5 ∧
    exerciseAt demoProcessed (demoAt 10).currentExerciseIndex = some procB ∧
    procB.setup_s + procB.work_s = 4 ∧
    (demoAt 11).currentPhase = Phase.complete := by
  decide

/-- The scenario with the two intervals in the other order (the `restTimer`
callback before `tick` in every second): the machine is in `complete` from
second 10 on, with `totalElapsedSeconds = 7`; at second 9 it is in `block_rest`
with `exerciseElapsedSeconds = 4`, which the end of the rest does not reset.
In neither order does the workout last the 14 seconds of the timeline. -/
theorem demo_rest_first_completes_at_second_10 :
    (∀ k, k ≤ 14 → ((demoRestFirstAt k).currentPhase = Phase.complete ↔ 10 ≤ k)) ∧
    (demoRestFirstAt 9).currentPhase = Phase.block_rest ∧
    (demoRestFirstAt 9).exerciseElapsedSeconds = 4 ∧
    (demoRestFirstAt 10).totalElapsedSeconds = 7 ∧
    (demoRestFirstAt 10).currentExerciseIndex = 2 := by
  decide

/-- C10, refuted as stated: in the initial state (phase `ready`) a tick changes
both counters from 0 to 1, and in the scenario's final state (phase
`complete`) a tick moves `totalElapsedSeconds` from 8 to 9. -/
theorem tick_ready_complete_not_noop :
    initialState.currentPhase = Phase.ready ∧
    (tick demoTiming.config demoProcessed initialState).totalElapsedSeconds
      ≠ initialState.totalElapsedSeconds ∧
    (tick demoTiming.config demoProcessed initialState).exerciseElapsedSeconds
      ≠ initialState.exerciseElapsedSeconds ∧
    (demoAt 11).currentPhase = Phase.complete ∧
    (tick demoTiming.config demoProcessed (demoAt 11)).totalElapsedSeconds
      ≠ (demoAt 11).totalElapsedSeconds := by
  decide

/-- C10 as amended.  In phase `ready` or `complete` a tick leaves
`currentPhase`, `currentExerciseIndex`, `isRunning`, `isPaused` and every
other field unchanged, except that `totalElapsedSeconds` and
`exerciseElapsedSeconds` each grow by exactly 1. -/
theorem tick_ready_complete (config : TimingConfig) (ps : List ProcessedExercise)
    (s : State)
    (hphase : s.currentPhase = Phase.ready ∨ s.currentPhase = Phase.complete) :
    tick config ps s =
      { s with totalElapsedSeconds := s.totalElapsedSeconds + 1
               exerciseElapsedSeconds := s.exerciseElapsedSeconds + 1 } ∧
    (tick config ps s).currentPhase = s.currentPhase ∧
    (tick config ps s).currentExerciseIndex = s.currentExerciseIndex ∧
    (tick config ps s).isRunning = s.isRunning ∧
    (tick config ps s).isPaused = s.isPaused ∧
    (tick config ps s).totalElapsedSeconds = s.totalElapsedSeconds + 1 ∧
    (tick config ps s).exerciseElapsedSeconds = s.exerciseElapsedSeconds + 1 := by
  have key : tick config ps s =
      { s with totalElapsedSeconds := s.totalElapsedSeconds + 1
               exerciseElapsedSeconds := s.exerciseElapsedSeconds + 1 } := by
    rcases hphase with h | h <;> simp [tick, handlePhaseTransitions, h]
  rw [key]
  exact ⟨rfl, rfl, rfl, rfl, rfl, rfl, rfl⟩

/-- Witness for the amended C10 at the initial state. -/
theorem tick_ready_complete_witness :
    (initialState.currentPhase = Phase.ready ∨ initialState.currentPhase = Phase.complete) ∧
    (tick demoTiming.config demoProcessed initialState).currentPhase = Phase.ready ∧
    (tick demoTiming.config demoProcessed initialState).currentExerciseIndex = -1 ∧
    (tick demoTiming.config demoProcessed initialState).totalElapsedSeconds = 1 ∧
    (tick demoTiming.config demoProcessed initialState).exerciseElapsedSeconds = 1 :=
  have h := tick_ready_complete demoTiming.config demoProcessed initialState (Or.inl rfl)
  ⟨Or.inl rfl, h.2.1, h.2.2.1, h.2.2.2.2.2.1, h.2.2.2.2.2.2⟩

/-! ## Buttons: the claims on `start`, `pause` and `reset` -/

/-- C13 (reset).  From every state `reset()` yields phase `ready`, index -1,
both counters 0, `isRunning = false`, `isPaused = false` and the main interval
stopped; applying it twice is the same as applying it once. -/
theorem reset_clears (s : State) :
    (reset s).currentPhase = Phase.ready ∧
    (reset s).currentExerciseIndex = -1 ∧
    (reset s).totalElapsedSeconds = 0 ∧
    (reset s).exerciseElapsedSeconds = 0 ∧
    (reset s).isRunning = false ∧
    (reset s).isPaused = false ∧
    (reset s).timer = false ∧
    reset (reset s) = reset s :=
  ⟨rfl, rfl, rfl, rfl, rfl, rfl, rfl, rfl⟩

/-- C14 (pause).  On a running, unpaused state `pause()` sets `isPaused`, stops
the main interval and leaves phase, index, both counters and `isRunning`
unchanged; on a state that is not running or already paused it changes
nothing. -/
theorem pause_effect (s : State) :
    (s.isRunning = true → s.isPaused = false →
      (pause s).isPaused = true ∧ (pause s).timer = false ∧
      (pause s).currentPhase = s.currentPhase ∧
      (pause s).currentExerciseIndex = s.currentExerciseIndex ∧
      (pause s).totalElapsedSeconds = s.totalElapsedSeconds ∧
      (pause s).exerciseElapsedSeconds = s.exerciseElapsedSeconds ∧
      (pause s).isRunning = s.isRunning) ∧
    ((s.isRunning = false ∨ s.isPaused = true) → pause s = s) := by
  refine ⟨?_, ?_⟩
  · intro hr hp
    simp [pause, hr, hp, stopTimer]
  · rintro (h | h) <;> simp [pause, h]

/-- Witness for C14: ten seconds into the scenario the machine is running and
unpaused and `pause()` freezes it; in the initial state `pause()` changes
nothing. -/
theorem pause_effect_witness :
    (demoAt 10).isRunning = true ∧ (demoAt 10).isPaused = false ∧
    ((pause (demoAt 10)).isPaused = true ∧ (pause (demoAt 10)).timer = false ∧
      (pause (demoAt 10)).currentPhase = (demoAt 10).currentPhase ∧
      (pause (demoAt 10)).currentExerciseIndex = (demoAt 10).currentExerciseIndex ∧
      (pause (demoAt 10)).totalElapsedSeconds = (demoAt 10).totalElapsedSeconds ∧
      (pause (demoAt 10)).exerciseElapsedSeconds = (demoAt 10).exerciseElapsedSeconds ∧
      (pause (demoAt 10)).isRunning = (demoAt 10).isRunning) ∧
    (initialState.isRunning = false ∨ initialState.isPaused = true) ∧
    pause initialState = initialState :=
  ⟨by decide, by decide, (pause_effect (demoAt 10)).1 (by decide) (by decide),
    Or.inl rfl, (pause_effect initialState).2 (Or.inl rfl)⟩

/-- C15 (start while running).  On a running, unpaused state `start()` changes
no field: no countdown overlay is opened and no interval is created. -/
theorem start_running_noop (config : TimingConfig) (s : State)
    (hr : s.isRunning = true) (hp : s.isPaused = false) :
    start config s = s := by
  simp [start, hr, hp]

/-- Witness for C15, ten seconds into the scenario. -/
theorem start_running_noop_witness :
    (demoAt 10).isRunning = true ∧ (demoAt 10).isPaused = false ∧
    start demoTiming.config (demoAt 10) = demoAt 10 :=
  ⟨by decide, by decide, start_running_noop demoTiming.config (demoAt 10) (by decide) (by decide)⟩

/-- C16 (pause, then resume).  From a running, unpaused state, `pause()`
followed at once by `start()` gives a running, unpaused state with the same
phase, index and counters, the main interval live again and no countdown
overlay opened. -/
theorem pause_then_start (config : TimingConfig) (s : State)
    (hr : s.isRunning = true) (hp : s.isPaused = false) :
    (start config (pause s)).isRunning = true ∧
    (start config (pause s)).isPaused = false ∧
    (start config (pause s)).currentPhase = s.currentPhase ∧
    (start config (pause s)).currentExerciseIndex = s.currentExerciseIndex ∧
    (start config (pause s)).totalElapsedSeconds = s.totalElapsedSeconds ∧
    (start config (pause s)).exerciseElapsedSeconds = s.exerciseElapsedSeconds ∧
    (start config (pause s)).timer = true ∧
    (start config (pause s)).countdowns = s.countdowns ∧
    start config (pause s) = { s with timer := true } := by
  have key : start config (pause s) = { s with timer := true } := by
    cases s
    simp only at hr hp
    subst hr hp
    simp [start, pause, stopTimer, startTimer]
  rw [key]
  exact ⟨hr, hp, rfl, rfl, rfl, rfl, rfl, rfl, rfl⟩

/-- Witness for C16, ten seconds into the scenario. -/
theorem pause_then_start_witness :
    (demoAt 10).isRunning = true ∧ (demoAt 10).isPaused = false ∧
    start demoTiming.config (pause (demoAt 10)) = demoAt 10 :=
  have h := pause_then_start demoTiming.config (demoAt 10) (by decide) (by decide)
  ⟨by decide, by decide, h.2.2.2.2.2.2.2.2.trans (by decide)⟩

/-! ## The countdown -/

/-- One second with a single countdown overlay live and no other timer: the
overlay counts down, and at zero the start callback runs. -/
theorem second_single_countdown (config : TimingConfig) (ps : List ProcessedExercise)
    (s : State) (n : Int)
    (ht : s.timer = false) (hr : s.restTimers = 0) (hp : s.pendingStarts = 0)
    (hc : s.countdowns = [n]) :
    second config ps s =
      if n - 1 > 0 then { s with countdowns := [n - 1] }
      else startCallback { s with countdowns := [] } := by
  cases s
  simp only at ht hr hp hc
  subst ht hr hp hc
  by_cases h : n - 1 > 0
  · have h' : 1 < n := by omega
    simp [second, countdownTimerCallback, h', List.range, List.range.loop]
  · have h' : ¬ 1 < n := by omega
    simp [second, countdownTimerCallback, h', List.range, List.range.loop, countdownFinished]

/-- A single overlay started at `m + 1` keeps the other fields for `m` seconds
and hands over to the start callback on second `m + 1`. -/
theorem seconds_single_countdown (config : TimingConfig) (ps : List ProcessedExercise) :
    ∀ (m : Nat) (s : State), s.timer = false → s.restTimers = 0 → s.pendingStarts = 0 →
      s.countdowns = [(m : Int) + 1] →
      (∀ k, k ≤ m →
        seconds config ps k s = { s with countdowns := [(m : Int) + 1 - (k : Int)] }) ∧
      seconds config ps (m + 1) s = startCallback { s with countdowns := [] } := by
  intro m
  induction m with
  | zero =>
    intro s ht hr hp hc
    refine ⟨?_, ?_⟩
    · intro k hk
      have hk0 : k = 0 := by omega
      subst hk0
      cases s
      simp only at hc
      subst hc
      simp [seconds]
    · have h := second_single_countdown config ps s _ ht hr hp hc
      simp only [seconds, Function.iterate_succ, Function.iterate_zero, Function.comp_apply,
        id_eq]
      rw [h]
      simp
  | succ m ih =>
    intro s ht hr hp hc
    have hstep := second_single_countdown config ps s _ ht hr hp hc
    have hpos : ((m + 1 : Nat) : Int) + 1 - 1 > 0 := by omega
    rw [if_pos hpos] at hstep
    have hcast : ((m + 1 : Nat) : Int) + 1 - 1 = (m : Int) + 1 := by omega
    rw [hcast] at hstep
    obtain ⟨ih₁, ih₂⟩ := ih { s with countdowns := [(m : Int) + 1] } ht hr hp rfl
    refine ⟨?_, ?_⟩
    · intro k hk
      cases k with
      | zero =>
        cases s
        simp only at hc
        subst hc
        simp [seconds]
      | succ k =>
        have hk' : k ≤ m := by omega
        have := ih₁ k hk'
        simp only [seconds, Function.iterate_succ, Function.comp_apply] at this ⊢
        rw [hstep, this]
        have hc2 : ((m + 1 : Nat) : Int) + 1 - ((k + 1 : Nat) : Int) = (m : Int) + 1 - (k : Int) := by
          omega
        rw [hc2]
    · simp only [seconds, Function.iterate_succ, Function.comp_apply] at ih₂ ⊢
      rw [hstep, ih₂]

/-- C11, refuted as stated: `start()` in the initial state (not running, phase
`ready`) leaves the phase `ready`, not `countdown`; and `start()` in the
scenario's final state (not running, phase `complete`) leaves
`totalElapsedSeconds` at 8, not 0. -/
theorem start_does_not_enter_countdown :
    initialState.isRunning = false ∧
    (start demoTiming.config initialState).currentPhase = Phase.ready ∧
    (start demoTiming.config initialState).currentPhase ≠ Phase.countdown ∧
    (demoAt 11).isRunning = false ∧
    (start demoTiming.config (demoAt 11)).currentPhase = Phase.complete ∧
    (start demoTiming.config (demoAt 11)).totalElapsedSeconds = 8 := by
  decide

/-- C11 as amended.  On a state that is not running `start()` only opens a
countdown overlay whose count begins at `countdown_s`: the phase and both
counters stay as they are.  The start callback then puts the machine in phase
`exercise` at index 0 with both counters 0, running and unpaused.  With no
other timer live and `countdown_s = m + 1`, the phase is unchanged and the
machine not running during the first `m` seconds, and second `m + 1` ends in
the state the start callback produces. -/
theorem start_when_not_running (config : TimingConfig) (ps : List ProcessedExercise)
    (s : State) (h : s.isRunning = false) :
    start config s = { s with countdowns := s.countdowns ++ [config.countdown_s] } ∧
    (start config s).currentPhase = s.currentPhase ∧
    (start config s).totalElapsedSeconds = s.totalElapsedSeconds ∧
    (start config s).exerciseElapsedSeconds = s.exerciseElapsedSeconds ∧
    ((startCallback (start config s)).currentPhase = Phase.exercise ∧
      (startCallback (start config s)).currentExerciseIndex = 0 ∧
      (startCallback (start config s)).totalElapsedSeconds = 0 ∧
      (startCallback (start config s)).exerciseElapsedSeconds = 0 ∧
      (startCallback (start config s)).isRunning = true ∧
      (startCallback (start config s)).isPaused = false) ∧
    (s.timer = false → s.restTimers = 0 → s.countdowns = [] → s.pendingStarts = 0 →
      ∀ m : Nat, config.countdown_s = (m : Int) + 1 →
        (∀ k, k ≤ m →
          (seconds config ps k (start config s)).currentPhase = s.currentPhase ∧
          (seconds config ps k (start config s)).isRunning = false) ∧
        seconds config ps (m + 1) (start config s) = startCallback s) := by
  have key : start config s = { s with countdowns := s.countdowns ++ [config.countdown_s] } := by
    simp [start, h, showCountdown]
  refine ⟨key, ?_, ?_, ?_, ⟨rfl, rfl, rfl, rfl, rfl, rfl⟩, ?_⟩
  · rw [key]
  · rw [key]
  · rw [key]
  · intro ht hr hc hp m hm
    rw [key, hc, hm]
    obtain ⟨h₁, h₂⟩ := seconds_single_countdown config ps m
      { s with countdowns := [] ++ [(m : Int) + 1] } ht hr hp rfl
    refine ⟨?_, ?_⟩
    · intro k hk
      rw [h₁ k hk]
      exact ⟨rfl, h⟩
    · rw [h₂]
      cases s
      simp only at hc
      subst hc
      rfl

/-- Witness for the amended C11 at the initial state of the scenario
(`countdown_s = 3`). -/
theorem start_when_not_running_witness :
    initialState.isRunning = false ∧
    (start demoTiming.config initialState).currentPhase = Phase.ready ∧
    (startCallback (start demoTiming.config initialState)).currentPhase = Phase.exercise ∧
    (∀ k, k ≤ 2 →
      (seconds demoTiming.config demoProcessed k (start demoTiming.config initialState)).currentPhase
        = Phase.ready ∧
      (seconds demoTiming.config demoProcessed k (start demoTiming.config initialState)).isRunning
        = false) ∧
    seconds demoTiming.config demoProcessed (2 + 1) (start demoTiming.config initialState)
      = startCallback initialState :=
  have h := start_when_not_running demoTiming.config demoProcessed initialState rfl
  have hrun := h.2.2.2.2.2 rfl rfl rfl rfl 2 (by decide)
  ⟨rfl, h.2.1, h.2.2.2.2.1.1, hrun.1, hrun.2⟩

/-! ## The up-next notice -/

theorem tickCallsShowUpNext_exercise (config : TimingConfig) (ps : List ProcessedExercise)
    (s : State) (cur : ProcessedExercise)
    (hphase : s.currentPhase = Phase.exercise)
    (hcur : exerciseAt ps s.currentExerciseIndex = some cur) :
    (tickCallsShowUpNext config ps s = true ↔
      cur.work_s - (s.exerciseElapsedSeconds + 1 - cur.setup_s) = config.up_next_notice_s) := by
  simp [tickCallsShowUpNext, callsShowUpNext, hphase, hcur]

theorem completeCurrentExercise_index (config : TimingConfig)
    (ps : List ProcessedExercise) (s : State) :
    (completeCurrentExercise config ps s).currentExerciseIndex = s.currentExerciseIndex + 1 := by
  unfold completeCurrentExercise
  dsimp only
  split_ifs
  · rfl
  · split
    · split_ifs <;> rfl
    · rfl

/-- While an exercise entered with `exerciseElapsedSeconds = 0` is not over,
`k` ticks have only moved the two counters by `k`. -/
theorem iterate_tick_exercise (config : TimingConfig) (ps : List ProcessedExercise)
    (s : State) (cur : ProcessedExercise)
    (hphase : s.currentPhase = Phase.exercise)
    (hcur : exerciseAt ps s.currentExerciseIndex = some cur)
    (hzero : s.exerciseElapsedSeconds = 0) :
    ∀ k : Nat, (k : Int) < cur.totalDuration →
      Nat.iterate (tick config ps) k s =
        { s with totalElapsedSeconds := s.totalElapsedSeconds + (k : Int)
                 exerciseElapsedSeconds := (k : Int) } := by
  intro k
  induction k with
  | zero =>
    intro _
    cases s
    simp only at hzero
    subst hzero
    simp
  | succ k ih =>
    intro hk
    have hk' : (k : Int) < cur.totalDuration := by omega
    rw [Function.iterate_succ_apply', ih hk']
    have hk'' : (k : Int) + 1 < cur.totalDuration := by omega
    have hstep := tick_exercise_running config ps
      { s with totalElapsedSeconds := s.totalElapsedSeconds + (k : Int)
               exerciseElapsedSeconds := (k : Int) } cur hphase hcur hk''
    rw [hstep]
    simp only [Nat.cast_add, Nat.cast_one, add_assoc]

/-- C17, refuted as stated: exercise A of the scenario (setup 0, work 2, with
`up_next_notice_s = 5`) is entered with `exerciseElapsedSeconds = 0`, takes two
ticks, and neither tick calls `showUpNext`. -/
theorem upNext_never_for_short_exercise :
    demoTiming.config.up_next_notice_s = 5 ∧
    (demoAt 3).currentPhase = Phase.exercise ∧
    exerciseAt demoProcessed (demoAt 3).currentExerciseIndex = some procA ∧
    (demoAt 3).exerciseElapsedSeconds = 0 ∧
    tickCallsShowUpNext demoTiming.config demoProcessed (demoAt 3) = false ∧
    tick demoTiming.config demoProcessed (demoAt 3) = demoAt 4 ∧
    tickCallsShowUpNext demoTiming.config demoProcessed (demoAt 4) = false ∧
    (tick demoTiming.config demoProcessed (demoAt 4)).currentExerciseIndex = 1 := by
  decide

/-- With `work_s = 10.5`, setup 0 and a notice of 5 seconds (so that
`0 ≤ 5 < 10.5`), the exercise ends with its eleventh tick and the test
`timeUntilEnd === up_next_notice_s` holds on none of the eleven:
`timeUntilEnd` runs through 9.5, 8.5, ..., -0.5. -/
theorem upNext_never_for_fractional_work :
    (JSNumber.ofInt 0).le (JSNumber.ofInt 5) = true ∧
    (JSNumber.ofInt 5).lt ((JSNumber.ofInt 0).add tenAndAHalf) = true ∧
    ∀ k ∈ List.range 11,
      Js.upNextTest (JSNumber.ofInt ((k : Int) + 1)) (JSNumber.ofInt 0) tenAndAHalf
        (JSNumber.ofInt 5) = false ∧
      Js.exerciseComplete (JSNumber.ofInt ((k : Int) + 1)) ((JSNumber.ofInt 0).add tenAndAHalf)
        = decide (k + 1 = 11) := by
  decide

/-- C17 as amended.  Let `setup_s`, `work_s`, `up_next_notice_s` and
`totalDuration = setup_s + work_s ≥ 1` be whole numbers and safe integers.  An
exercise entered with `exerciseElapsedSeconds = 0` lasts
`totalDuration` ticks (the index moves on with the last of them).  On the tick
number `k + 1` the test of the source over numbers is computed exactly, and the
tick calls `showUpNext` exactly when
`timeUntilEnd = work_s - ((k + 1) - setup_s)` equals `up_next_notice_s`; so at
most one tick calls it, and one does exactly when
`0 ≤ up_next_notice_s < setup_s + work_s` (otherwise none). -/
theorem upNext_during_exercise (config : TimingConfig) (ps : List ProcessedExercise)
    (s : State) (cur : ProcessedExercise)
    (hphase : s.currentPhase = Phase.exercise)
    (hcur : exerciseAt ps s.currentExerciseIndex = some cur)
    (hzero : s.exerciseElapsedSeconds = 0)
    (htot : cur.totalDuration = cur.setup_s + cur.work_s)
    (hD : 1 ≤ cur.totalDuration)
    (hsafe : SafeInt cur.setup_s ∧ SafeInt cur.work_s ∧ SafeInt cur.totalDuration ∧
      SafeInt config.up_next_notice_s) :
    (∀ k : Nat, (k : Int) < cur.totalDuration →
      (Nat.iterate (tick config ps) k s).currentPhase = Phase.exercise ∧
      (Nat.iterate (tick config ps) k s).currentExerciseIndex = s.currentExerciseIndex ∧
      (Nat.iterate (tick config ps) k s).exerciseElapsedSeconds = (k : Int)) ∧
    (Nat.iterate (tick config ps) cur.totalDuration.toNat s).currentExerciseIndex
      = s.currentExerciseIndex + 1 ∧
    (∀ k : Nat, (k : Int) < cur.totalDuration →
      Js.upNextTest (JSNumber.ofInt ((k : Int) + 1)) cur.toJs.setup_s cur.toJs.work_s
          (JSNumber.ofInt config.up_next_notice_s)
        = tickCallsShowUpNext config ps (Nat.iterate (tick config ps) k s) ∧
      Js.exerciseComplete (JSNumber.ofInt ((k : Int) + 1)) cur.toJs.totalDuration
        = decide (cur.totalDuration ≤ (k : Int) + 1)) ∧
    (∀ k : Nat, (k : Int) < cur.totalDuration →
      (tickCallsShowUpNext config ps (Nat.iterate (tick config ps) k s) = true ↔
        cur.work_s - (((k : Int) + 1) - cur.setup_s) = config.up_next_notice_s)) ∧
    (∀ k k' : Nat, (k : Int) < cur.totalDuration → (k' : Int) < cur.totalDuration →
      tickCallsShowUpNext config ps (Nat.iterate (tick config ps) k s) = true →
      tickCallsShowUpNext config ps (Nat.iterate (tick config ps) k' s) = true → k = k') ∧
    ((∃ k : Nat, (k : Int) < cur.totalDuration ∧
        tickCallsShowUpNext config ps (Nat.iterate (tick config ps) k s) = true) ↔
      (0 ≤ config.up_next_notice_s ∧ config.up_next_notice_s < cur.setup_s + cur.work_s)) := by
  have hiter := iterate_tick_exercise config ps s cur hphase hcur hzero
  have htrig : ∀ k : Nat, (k : Int) < cur.totalDuration →
      (tickCallsShowUpNext config ps (Nat.iterate (tick config ps) k s) = true ↔
        cur.work_s - (((k : Int) + 1) - cur.setup_s) = config.up_next_notice_s) := by
    intro k hk
    rw [hiter k hk]
    exact tickCallsShowUpNext_exercise config ps _ cur hphase hcur
  refine ⟨?_, ?_, ?_, htrig, ?_, ?_⟩
  · intro k hk
    rw [hiter k hk]
    exact ⟨hphase, rfl, rfl⟩
  · obtain ⟨n, hn⟩ : ∃ n : Nat, cur.totalDuration = (n : Int) + 1 :=
      ⟨(cur.totalDuration - 1).toNat, by omega⟩
    have hnat : cur.totalDuration.toNat = n + 1 := by omega
    rw [hnat, Function.iterate_succ_apply', hiter n (by omega)]
    have hdone := tick_exercise_done config ps
      { s with totalElapsedSeconds := s.totalElapsedSeconds + (n : Int)
               exerciseElapsedSeconds := (n : Int) } cur hphase hcur
      (by show (n : Int) + 1 ≥ cur.totalDuration; omega)
    rw [hdone, completeCurrentExercise_index]
  · intro k hk
    obtain ⟨hsetup, hwork, hdur, -⟩ := hsafe
    unfold SafeInt at hsetup hwork hdur
    have h₁ : SafeInt ((k : Int) + 1 - cur.setup_s) := by
      unfold SafeInt
      constructor <;> omega
    have h₂ : SafeInt (cur.work_s - ((k : Int) + 1 - cur.setup_s)) := by
      unfold SafeInt
      constructor <;> omega
    refine ⟨?_, ?_⟩
    · simp only [ProcessedExercise.toJs]
      rw [upNextTest_ofInt _ _ _ _ h₁ h₂]
      by_cases hm : cur.work_s - ((k : Int) + 1 - cur.setup_s) = config.up_next_notice_s
      · rw [(htrig k hk).2 hm]
        simp [hm]
      · cases hb : tickCallsShowUpNext config ps (Nat.iterate (tick config ps) k s) with
        | false => simp [hm]
        | true => exact absurd ((htrig k hk).1 hb) hm
    · simp only [ProcessedExercise.toJs, Js.exerciseComplete, JSNumber.le_ofInt]
  · intro k k' hk hk' h₁ h₂
    have e₁ := (htrig k hk).1 h₁
    have e₂ := (htrig k' hk').1 h₂
    omega
  · constructor
    · rintro ⟨k, hk, h⟩
      have e := (htrig k hk).1 h
      constructor <;> omega
    · rintro ⟨h₀, h₁⟩
      refine ⟨(cur.setup_s + cur.work_s - 1 - config.up_next_notice_s).toNat, ?_, ?_⟩
      · omega
      · have hk : (((cur.setup_s + cur.work_s - 1 - config.up_next_notice_s).toNat : Nat) : Int)
            < cur.totalDuration := by omega
        rw [htrig _ hk]
        omega

/-- Witness for the amended C17: exercise B of the scenario (setup 1, work 3)
under a notice of 2 seconds; the call comes on the second tick, where
`timeUntilEnd = 3 - (2 - 1) = 2`. -/
theorem upNext_during_exercise_witness :
    (∃ k : Nat, (k : Int) < procB.totalDuration ∧
      tickCallsShowUpNext { demoTiming.config with up_next_notice_s := 2 } demoProcessed
        (Nat.iterate (tick { demoTiming.config with up_next_notice_s := 2 } demoProcessed) k
          { startCallback initialState with currentExerciseIndex := 1 }) = true) ∧
    tickCallsShowUpNext { demoTiming.config with up_next_notice_s := 2 } demoProcessed
      (Nat.iterate (tick { demoTiming.config with up_next_notice_s := 2 } demoProcessed) 1
        { startCallback initialState with currentExerciseIndex := 1 }) = true ∧
    Js.upNextTest (JSNumber.ofInt 2) procB.toJs.setup_s procB.toJs.work_s (JSNumber.ofInt 2)
      = true :=
  ⟨(upNext_during_exercise { demoTiming.config with up_next_notice_s := 2 } demoProcessed
      { startCallback initialState with currentExerciseIndex := 1 } procB
      (by decide) (by decide) (by decide) (by decide) (by decide) (by decide)).2.2.2.2.2.2
      ⟨by decide, by decide⟩,
    by decide, by decide⟩

/-- C18, refuted as stated: with setup 10, work 3 and `up_next_notice_s = 5`
(so `work_s < up_next_notice_s` and `setup_s ≥ 0`), the eighth tick of the
exercise calls `showUpNext`: `timeUntilEnd = 3 - (8 - 10) = 5`.  The machine is
still in the setup phase then. -/
theorem upNext_fires_during_setup :
    demoTiming.config.up_next_notice_s = 5 ∧
    procLongSetup.work_s < demoTiming.config.up_next_notice_s ∧
    0 ≤ procLongSetup.setup_s ∧
    (longSetupAt 7).currentPhase = Phase.exercise ∧
    exerciseAt longSetupProcessed (longSetupAt 7).currentExerciseIndex = some procLongSetup ∧
    (longSetupAt 7).exerciseElapsedSeconds = 7 ∧
    tickCallsShowUpNext demoTiming.config longSetupProcessed (longSetupAt 7) = true ∧
    (tick demoTiming.config longSetupProcessed (longSetupAt 7)).exerciseElapsedSeconds
      < procLongSetup.setup_s := by
  decide

/-- C18 as amended.  For an exercise with `setup_s + work_s ≤ up_next_notice_s`
no tick during it calls `showUpNext`, whatever the non-negative value of
`exerciseElapsedSeconds` before the tick. -/
theorem upNext_never_when_short (config : TimingConfig) (ps : List ProcessedExercise)
    (s : State) (cur : ProcessedExercise)
    (hphase : s.currentPhase = Phase.exercise)
    (hcur : exerciseAt ps s.currentExerciseIndex = some cur)
    (hex : 0 ≤ s.exerciseElapsedSeconds)
    (hshort : cur.setup_s + cur.work_s ≤ config.up_next_notice_s) :
    tickCallsShowUpNext config ps s = false := by
  have h := tickCallsShowUpNext_exercise config ps s cur hphase hcur
  cases hb : tickCallsShowUpNext config ps s with
  | false => rfl
  | true =>
    have e := h.1 hb
    omega

/-- Witness for the amended C18: exercise A of the scenario (0 + 2 ≤ 5). -/
theorem upNext_never_when_short_witness :
    (demoAt 3).currentPhase = Phase.exercise ∧
    exerciseAt demoProcessed (demoAt 3).currentExerciseIndex = some procA ∧
    0 ≤ (demoAt 3).exerciseElapsedSeconds ∧
    procA.setup_s + procA.work_s ≤ demoTiming.config.up_next_notice_s ∧
    tickCallsShowUpNext demoTiming.config demoProcessed (demoAt 3) = false :=
  ⟨by decide, by decide, by decide, by decide,
    upNext_never_when_short demoTiming.config demoProcessed (demoAt 3) procA
      (by decide) (by decide) (by decide) (by decide)⟩

/-! ## Reachable states -/

theorem exerciseAt_some_bounds {ps : List ProcessedExercise} {i : Int}
    {cur : ProcessedExercise} (h : exerciseAt ps i = some cur) :
    0 ≤ i ∧ i < (ps.length : Int) := by
  unfold exerciseAt at h
  split_ifs at h with hneg
  have hlt := (List.getElem?_eq_some.1 h).1
  omega

theorem reachable_of_runEvents (config : TimingConfig) (ps : List ProcessedExercise) :
    ∀ (es : List Event) (s s' : State), Reachable config ps s →
      runEvents config ps es s = some s' → Reachable config ps s' := by
  intro es
  induction es with
  | nil =>
    intro s s' hs h
    simp only [runEvents, Option.some.injEq] at h
    subst h
    exact hs
  | cons e es ih =>
    intro s s' hs h
    simp only [runEvents] at h
    split_ifs at h with hen
    exact ih _ _ (Reachable.step e s hs hen) h

theorem phaseInv_of_active (ps : List ProcessedExercise) (s : State)
    (h₁ : s.timer = true → s.isRunning = true)
    (h₂ : s.currentPhase ≠ Phase.ready) (h₃ : s.currentPhase ≠ Phase.complete) :
    PhaseInv ps s :=
  ⟨h₁, fun h => absurd h h₂, fun h => absurd h h₃⟩

theorem phaseInv_completeCurrentExercise (config : TimingConfig)
    (ps : List ProcessedExercise) (s : State) (cur : ProcessedExercise)
    (h₁ : s.timer = true → s.isRunning = true)
    (hphase : s.currentPhase = Phase.exercise)
    (hcur : exerciseAt ps s.currentExerciseIndex = some cur) :
    PhaseInv ps (completeCurrentExercise config ps s) := by
  have hb := exerciseAt_some_bounds hcur
  unfold completeCurrentExercise
  dsimp only
  split_ifs with hge
  · refine ⟨?_, ?_, ?_⟩
    · intro h; simp [completeWorkout, stopTimer] at h
    · intro h; simp [completeWorkout, stopTimer] at h
    · intro _
      refine ⟨rfl, ?_⟩
      show s.currentExerciseIndex + 1 = (ps.length : Int)
      omega
  · split
    · split_ifs
      · exact phaseInv_of_active ps _ h₁ (by simp [startBlockRest]) (by simp [startBlockRest])
      · exact phaseInv_of_active ps _ h₁ (by simp [startCurrentExercise, hphase])
          (by simp [startCurrentExercise, hphase])
      · exact phaseInv_of_active ps _ h₁ (by simp [startCurrentExercise, hphase])
          (by simp [startCurrentExercise, hphase])
    · exact phaseInv_of_active ps _ h₁ (by simp [hphase]) (by simp [hphase])

theorem phaseInv_tick (config : TimingConfig) (ps : List ProcessedExercise) (s : State)
    (hinv : PhaseInv ps s) (ht : s.timer = true) : PhaseInv ps (tick config ps s) := by
  obtain ⟨h₁, h₂, h₃⟩ := hinv
  have hrun := h₁ ht
  have hnr : s.currentPhase ≠ Phase.ready := by
    intro h
    have := (h₂ h).1
    rw [hrun] at this
    exact absurd this (by decide)
  have hnc : s.currentPhase ≠ Phase.complete := by
    intro h
    have := (h₃ h).1
    rw [hrun] at this
    exact absurd this (by decide)
  unfold tick handlePhaseTransitions
  dsimp only
  split_ifs with hc hge he
  · exact phaseInv_of_active ps _ h₁ (by simp [startCurrentExercise])
      (by simp [startCurrentExercise])
  · exact phaseInv_of_active ps _ h₁ hnr hnc
  · split
    · exact phaseInv_of_active ps _ h₁ hnr hnc
    · rename_i cur hcur
      split_ifs
      · exact phaseInv_completeCurrentExercise config ps _ cur h₁ he hcur
      · exact phaseInv_of_active ps _ h₁ hnr hnc
  · exact phaseInv_of_active ps _ h₁ hnr hnc

theorem phaseInv_start (config : TimingConfig) (ps : List ProcessedExercise) (s : State)
    (hinv : PhaseInv ps s) : PhaseInv ps (start config s) := by
  obtain ⟨h₁, h₂, h₃⟩ := hinv
  unfold start
  split_ifs with ha hb
  · exact ⟨h₁, h₂, h₃⟩
  · exact ⟨h₁, h₂, h₃⟩
  · have hrun : s.isRunning = true := by simpa using hb
    refine ⟨fun _ => rfl, ?_, ?_⟩
    · intro h
      have := (h₂ h).1
      rw [hrun] at this
      exact absurd this (by decide)
    · intro h
      have := (h₃ h).1
      rw [hrun] at this
      exact absurd this (by decide)

theorem phaseInv_pause (ps : List ProcessedExercise) (s : State)
    (hinv : PhaseInv ps s) : PhaseInv ps (pause s) := by
  obtain ⟨h₁, h₂, h₃⟩ := hinv
  unfold pause
  split_ifs
  · exact ⟨h₁, h₂, h₃⟩
  · exact ⟨fun h => by simp [stopTimer] at h, h₂, h₃⟩

theorem phaseInv_reset (ps : List ProcessedExercise) (s : State) : PhaseInv ps (reset s) :=
  ⟨fun h => by simp [reset, stopTimer] at h, fun _ => ⟨rfl, rfl, rfl⟩,
    fun h => by simp [reset, stopTimer] at h⟩

theorem phaseInv_restTimerCallback (ps : List ProcessedExercise) (s : State)
    (hinv : PhaseInv ps s) : PhaseInv ps (restTimerCallback s) := by
  obtain ⟨h₁, h₂, h₃⟩ := hinv
  unfold restTimerCallback
  dsimp only
  split
  · exact ⟨h₁, h₂, h₃⟩
  · split_ifs
    · exact phaseInv_of_active ps _ h₁ (by simp [startCurrentExercise])
        (by simp [startCurrentExercise])
    · exact ⟨h₁, h₂, h₃⟩

theorem phaseInv_countdownTimerCallback (ps : List ProcessedExercise) (k : Nat) (s : State)
    (hinv : PhaseInv ps s) : PhaseInv ps (countdownTimerCallback k s) := by
  obtain ⟨h₁, h₂, h₃⟩ := hinv
  unfold countdownTimerCallback
  split
  · exact ⟨h₁, h₂, h₃⟩
  · split_ifs
    · exact ⟨h₁, h₂, h₃⟩
    · exact ⟨h₁, h₂, h₃⟩

theorem phaseInv_countdownFinished (ps : List ProcessedExercise) (s : State)
    (hinv : PhaseInv ps s) : PhaseInv ps (countdownFinished s) := by
  unfold countdownFinished
  split_ifs
  · exact hinv
  · exact phaseInv_of_active ps _ (fun _ => rfl) (by simp [startCallback, startCurrentExercise, startTimer, stopTimer])
      (by simp [startCallback, startCurrentExercise, startTimer, stopTimer])

/-- Every reachable state satisfies `PhaseInv`. -/
theorem reachable_phaseInv (config : TimingConfig) (ps : List ProcessedExercise) (s : State)
    (h : Reachable config ps s) : PhaseInv ps s := by
  induction h with
  | init => exact ⟨fun h => by simp [initialState] at h, fun _ => ⟨rfl, rfl, rfl⟩,
      fun h => by simp [initialState] at h⟩
  | step e s _ hen ih =>
    cases e with
    | start => exact phaseInv_start config ps s ih
    | pause => exact phaseInv_pause ps s ih
    | reset => exact phaseInv_reset ps s
    | tick => exact phaseInv_tick config ps s ih (by simpa [enabled] using hen)
    | restStep => exact phaseInv_restTimerCallback ps s ih
    | countdownStep k => exact phaseInv_countdownTimerCallback ps k s ih
    | countdownDone => exact phaseInv_countdownFinished ps s ih

theorem completeCurrentExercise_phase_ne_countdown (config : TimingConfig)
    (ps : List ProcessedExercise) (s : State) (h : s.currentPhase ≠ Phase.countdown) :
    (completeCurrentExercise config ps s).currentPhase ≠ Phase.countdown := by
  unfold completeCurrentExercise
  dsimp only
  split_ifs
  · simp [completeWorkout, stopTimer]
  · split
    · split_ifs
      · simp [startBlockRest]
      · exact h
      · exact h
    · exact h

theorem tick_phase_ne_countdown (config : TimingConfig) (ps : List ProcessedExercise)
    (s : State) (h : s.currentPhase ≠ Phase.countdown) :
    (tick config ps s).currentPhase ≠ Phase.countdown := by
  unfold tick handlePhaseTransitions
  dsimp only
  split_ifs with hc hge he
  · exact absurd hc h
  · exact absurd hc h
  · split
    · exact h
    · split_ifs
      · exact completeCurrentExercise_phase_ne_countdown config ps _ h
      · exact h
  · exact h

/-- The phase `countdown` is never reached: nothing assigns it. -/
theorem reachable_phase_ne_countdown (config : TimingConfig) (ps : List ProcessedExercise)
    (s : State) (h : Reachable config ps s) : s.currentPhase ≠ Phase.countdown := by
  induction h with
  | init => simp [initialState]
  | step e s _ _ ih =>
    cases e with
    | start =>
      show (start config s).currentPhase ≠ Phase.countdown
      unfold start
      split_ifs <;> exact ih
    | pause =>
      show (pause s).currentPhase ≠ Phase.countdown
      unfold pause
      split_ifs <;> exact ih
    | reset => simp [fire, reset, stopTimer]
    | tick => exact tick_phase_ne_countdown config ps s ih
    | restStep =>
      show (restTimerCallback s).currentPhase ≠ Phase.countdown
      unfold restTimerCallback
      dsimp only
      split
      · exact ih
      · split_ifs
        · simp [startCurrentExercise]
        · exact ih
    | countdownStep k =>
      show (countdownTimerCallback k s).currentPhase ≠ Phase.countdown
      unfold countdownTimerCallback
      split
      · exact ih
      · split_ifs <;> exact ih
    | countdownDone =>
      show (countdownFinished s).currentPhase ≠ Phase.countdown
      unfold countdownFinished
      split_ifs
      · exact ih
      · simp [startCallback, startCurrentExercise, startTimer, stopTimer]

/-! ## Phase invariants: the claims -/

/-- C19, evaluated on the scenario.  Start, let the countdown finish, let
exercise A end so that the block rest begins, press `reset()`, and let the
`restTimer` interval (which `reset()` does not clear) fire five times.  The
state reached has phase `exercise` although `currentExerciseIndex = -1` and
`totalElapsedSeconds = 0`; it is not running and no timer is live any more. -/
theorem reset_during_rest_breaks_ready_iff :
    runEvents demoTiming.config demoProcessed resetDuringRestTrace initialState
      = some staleRestState ∧
    Reachable demoTiming.config demoProcessed staleRestState ∧
    staleRestState.currentExerciseIndex = -1 ∧
    staleRestState.totalElapsedSeconds = 0 ∧
    staleRestState.currentPhase = Phase.exercise ∧
    ¬ (staleRestState.currentPhase = Phase.ready ↔
      (staleRestState.currentExerciseIndex = -1 ∧ staleRestState.totalElapsedSeconds = 0)) ∧
    staleRestState.isRunning = false ∧ staleRestState.timer = false ∧
    staleRestState.restTimers = 0 :=
  ⟨by decide,
    reachable_of_runEvents demoTiming.config demoProcessed resetDuringRestTrace initialState
      staleRestState Reachable.init (by decide),
    by decide, by decide, by decide, by decide, by decide, by decide, by decide⟩

/-- C20 (complete).  In every reachable state whose phase is `complete`,
`isRunning` is false and `currentExerciseIndex` equals the length of the
sequence. -/
theorem reachable_complete (config : TimingConfig) (ps : List ProcessedExercise) (s : State)
    (hreach : Reachable config ps s) (hphase : s.currentPhase = Phase.complete) :
    s.isRunning = false ∧ s.currentExerciseIndex = (ps.length : Int) :=
  (reachable_phaseInv config ps s hreach).2.2 hphase

/-- Witness for C20: the scenario run to its end reaches `complete` with the
index 2. -/
theorem reachable_complete_witness :
    runEvents demoTiming.config demoProcessed demoTrace initialState = some (demoAt 11) ∧
    (demoAt 11).currentPhase = Phase.complete ∧
    (demoAt 11).isRunning = false ∧
    (demoAt 11).currentExerciseIndex = (demoProcessed.length : Int) :=
  ⟨by decide, by decide,
    reachable_complete demoTiming.config demoProcessed (demoAt 11)
      (reachable_of_runEvents demoTiming.config demoProcessed demoTrace initialState
        (demoAt 11) Reachable.init (by decide))
      (by decide)⟩

/-! ## Index validity and the empty sequence -/

theorem running_index_completeCurrentExercise (config : TimingConfig)
    (ps : List ProcessedExercise) (s : State) (cur : ProcessedExercise)
    (hcur : exerciseAt ps s.currentExerciseIndex = some cur)
    (hr : (completeCurrentExercise config ps s).isRunning = true) :
    0 ≤ (completeCurrentExercise config ps s).currentExerciseIndex ∧
    (completeCurrentExercise config ps s).currentExerciseIndex < (ps.length : Int) := by
  have hb := exerciseAt_some_bounds hcur
  rw [completeCurrentExercise_index]
  refine ⟨by omega, ?_⟩
  by_contra hlt
  have hge : s.currentExerciseIndex + 1 ≥ (ps.length : Int) := by omega
  have hstop : (completeCurrentExercise config ps s).isRunning = false := by
    simp [completeCurrentExercise, hge, completeWorkout, stopTimer]
  rw [hstop] at hr
  exact absurd hr (by decide)

theorem runningIndexInv_tick (config : TimingConfig) (ps : List ProcessedExercise) (s : State)
    (hinv : RunningIndexInv ps s) : RunningIndexInv ps (tick config ps s) := by
  unfold tick handlePhaseTransitions
  dsimp only
  split_ifs with hc hge he
  · exact hinv
  · exact hinv
  · split
    · exact hinv
    · rename_i cur hcur
      split_ifs
      · exact running_index_completeCurrentExercise config ps _ cur hcur
      · exact hinv
  · exact hinv

theorem runningIndexInv_start (config : TimingConfig) (ps : List ProcessedExercise) (s : State)
    (hinv : RunningIndexInv ps s) : RunningIndexInv ps (start config s) := by
  unfold start
  split_ifs with ha hb
  · exact hinv
  · exact hinv
  · intro _
    exact hinv (by simpa using hb)

theorem runningIndexInv_pause (ps : List ProcessedExercise) (s : State)
    (hinv : RunningIndexInv ps s) : RunningIndexInv ps (pause s) := by
  unfold pause
  split_ifs
  · exact hinv
  · exact hinv

theorem runningIndexInv_restTimerCallback (ps : List ProcessedExercise) (s : State)
    (hinv : RunningIndexInv ps s) : RunningIndexInv ps (restTimerCallback s) := by
  unfold restTimerCallback
  dsimp only
  split
  · exact hinv
  · split_ifs
    · exact hinv
    · exact hinv

theorem runningIndexInv_countdownTimerCallback (ps : List ProcessedExercise) (k : Nat)
    (s : State) (hinv : RunningIndexInv ps s) :
    RunningIndexInv ps (countdownTimerCallback k s) := by
  unfold countdownTimerCallback
  split
  · exact hinv
  · split_ifs
    · exact hinv
    · exact hinv

theorem runningIndexInv_countdownFinished (ps : List ProcessedExercise) (hne : ps ≠ [])
    (s : State) (hinv : RunningIndexInv ps s) : RunningIndexInv ps (countdownFinished s) := by
  have hpos : (0 : Int) < (ps.length : Int) := by
    have := List.length_pos.2 hne
    omega
  unfold countdownFinished
  split_ifs
  · exact hinv
  · intro _
    exact ⟨le_refl _, hpos⟩

/-- In every reachable state of a machine with a non-empty sequence, a running
machine has its index inside the sequence; a tick, which needs the main
interval live and hence a running machine, always finds its exercise. -/
theorem reachable_running_index (config : TimingConfig) (ps : List ProcessedExercise)
    (hne : ps ≠ []) (s : State) (h : Reachable config ps s) : RunningIndexInv ps s := by
  induction h with
  | init => intro hr; simp [initialState] at hr
  | step e s _ _ ih =>
    cases e with
    | start => exact runningIndexInv_start config ps s ih
    | pause => exact runningIndexInv_pause ps s ih
    | reset => intro hr; simp [fire, reset, stopTimer] at hr
    | tick => exact runningIndexInv_tick config ps s ih
    | restStep => exact runningIndexInv_restTimerCallback ps s ih
    | countdownStep k => exact runningIndexInv_countdownTimerCallback ps k s ih
    | countdownDone => exact runningIndexInv_countdownFinished ps hne s ih

/-- C21, evaluated on the scenario (a sequence of two exercises).  Resetting
during the block rest and letting the `restTimer` interval run out gives a
reachable state in phase `exercise` whose index is -1: not a valid position,
and the lookup of the current exercise finds nothing. -/
theorem stale_rest_index_out_of_range :
    demoProcessed ≠ [] ∧
    Reachable demoTiming.config demoProcessed staleRestState ∧
    staleRestState.currentPhase = Phase.exercise ∧
    staleRestState.currentExerciseIndex = -1 ∧
    ¬ (0 ≤ staleRestState.currentExerciseIndex ∧
        staleRestState.currentExerciseIndex < (demoProcessed.length : Int)) ∧
    exerciseAt demoProcessed staleRestState.currentExerciseIndex = none :=
  ⟨by decide,
    reachable_of_runEvents demoTiming.config demoProcessed resetDuringRestTrace initialState
      staleRestState Reachable.init (by decide),
    by decide, by decide, by decide, by decide⟩

theorem second_empty_exercise (config : TimingConfig) (s : State)
    (hphase : s.currentPhase = Phase.exercise) (ht : s.timer = true)
    (hr : s.restTimers = 0) (hc : s.countdowns = []) (hp : s.pendingStarts = 0) :
    second config [] s =
      { s with totalElapsedSeconds := s.totalElapsedSeconds + 1
               exerciseElapsedSeconds := s.exerciseElapsedSeconds + 1 } := by
  cases s
  simp only at hphase ht hr hc hp
  subst hphase ht hr hc hp
  simp [second, tick, handlePhaseTransitions, exerciseAt, List.range, List.range.loop]

theorem seconds_empty_exercise (config : TimingConfig) :
    ∀ (k : Nat) (s : State), s.currentPhase = Phase.exercise → s.timer = true →
      s.restTimers = 0 → s.countdowns = [] → s.pendingStarts = 0 →
      seconds config [] k s =
        { s with totalElapsedSeconds := s.totalElapsedSeconds + (k : Int)
                 exerciseElapsedSeconds := s.exerciseElapsedSeconds + (k : Int) } := by
  intro k
  induction k with
  | zero => intro s _ _ _ _ _; simp [seconds]
  | succ k ih =>
    intro s hphase ht hr hc hp
    have hstep := second_empty_exercise config s hphase ht hr hc hp
    have hrec := ih { s with totalElapsedSeconds := s.totalElapsedSeconds + 1
                             exerciseElapsedSeconds := s.exerciseElapsedSeconds + 1 }
      hphase ht hr hc hp
    simp only [seconds, Function.iterate_succ, Function.comp_apply] at hrec ⊢
    rw [hstep, hrec]
    simp only [Nat.cast_add, Nat.cast_one]
    congr 1 <;> omega

/-- C22, refuted as stated: with an empty exercise list (for which
`processExercises` builds `([], 0)`) and `countdown_s = 3`, `start()` in the
initial state leads after three seconds to phase `exercise`, running, and the
machine is still running in phase `exercise` at every second up to 30. -/
theorem empty_list_keeps_running :
    processExercises { demoTiming with exercises := [] } demoI18n "it" = some ([], 0) ∧
    (∀ k, k ≤ 30 → 3 ≤ k →
      (seconds demoTiming.config [] k (start demoTiming.config initialState)).currentPhase
        = Phase.exercise ∧
      (seconds demoTiming.config [] k (start demoTiming.config initialState)).isRunning
        = true) := by
  decide

/-- C22 as amended.  With an empty exercise list, `start()` on a machine that
is not running and has no timer live opens the countdown; once the countdown
(`countdown_s = m + 1` seconds) is over, the machine is running in phase
`exercise` at index 0 and every further second only adds 1 to both counters:
`k` seconds later it is still running in phase `exercise`, never `complete`. -/
theorem empty_list_stays_in_exercise (config : TimingConfig) (s : State)
    (hrun : s.isRunning = false) (ht : s.timer = false) (hr : s.restTimers = 0)
    (hc : s.countdowns = []) (hp : s.pendingStarts = 0)
    (m : Nat) (hm : config.countdown_s = (m : Int) + 1) (k : Nat) :
    seconds config [] (k + (m + 1)) (start config s) =
      { startCallback s with totalElapsedSeconds := (k : Int)
                             exerciseElapsedSeconds := (k : Int) } ∧
    (seconds config [] (k + (m + 1)) (start config s)).currentPhase = Phase.exercise ∧
    (seconds config [] (k + (m + 1)) (start config s)).isRunning = true ∧
    (seconds config [] (k + (m + 1)) (start config s)).currentExerciseIndex = 0 ∧
    (seconds config [] (k + (m + 1)) (start config s)).currentPhase ≠ Phase.complete := by
  have hstart : start config s = { s with countdowns := [(m : Int) + 1] } := by
    simp [start, hrun, showCountdown, hc, hm]
  have hcount := (seconds_single_countdown config [] m
    { s with countdowns := [(m : Int) + 1] } ht hr hp rfl).2
  have hcb : startCallback { s with countdowns := [] } = startCallback s := by
    cases s
    simp only at hc
    subst hc
    rfl
  have key : seconds config [] (k + (m + 1)) (start config s) =
      { startCallback s with totalElapsedSeconds := (k : Int)
                             exerciseElapsedSeconds := (k : Int) } := by
    have hsplit : seconds config [] (k + (m + 1)) (start config s) =
        seconds config [] k (seconds config [] (m + 1) (start config s)) := by
      simp only [seconds, Function.iterate_add_apply]
    rw [hsplit, hstart, hcount]
    simp only [hcb]
    rw [seconds_empty_exercise config k (startCallback s) rfl rfl hr hc hp]
    simp [startCallback, startCurrentExercise, startTimer, stopTimer]
  rw [key]
  exact ⟨rfl, rfl, rfl, rfl, by simp [startCallback, startCurrentExercise, startTimer, stopTimer]⟩

/-- Witness for the amended C22: the initial state, `countdown_s = 3`, seven
seconds after the countdown. -/
theorem empty_list_stays_in_exercise_witness :
    initialState.isRunning = false ∧ demoTiming.config.countdown_s = ((2 : Nat) : Int) + 1 ∧
    (seconds demoTiming.config [] (7 + (2 + 1)) (start demoTiming.config initialState)).currentPhase
      = Phase.exercise ∧
    (seconds demoTiming.config [] (7 + (2 + 1)) (start demoTiming.config initialState)).isRunning
      = true ∧
    (seconds demoTiming.config [] (7 + (2 + 1)) (start demoTiming.config initialState)).totalElapsedSeconds
      = 7 :=
  have h := empty_list_stays_in_exercise demoTiming.config initialState rfl rfl rfl rfl rfl 2
    (by decide) 7
  ⟨rfl, by decide, h.2.1, h.2.2.1, by rw [h.1]; rfl⟩

/-! ## The timeline and the machine together -/

theorem completeCurrentExercise_adjacent (config : TimingConfig)
    (ps : List ProcessedExercise) (s : State) (i : Nat) (prev next : ProcessedExercise)
    (hidx : s.currentExerciseIndex = (i : Int))
    (hp : ps[i]? = some prev) (hn : ps[i + 1]? = some next) :
    completeCurrentExercise config ps s =
      if prev.block ≠ next.block ∧ blockRestSeconds config prev.block > 0 then
        startBlockRest (blockRestSeconds config prev.block)
          { s with currentExerciseIndex := (i : Int) + 1, exerciseElapsedSeconds := 0 }
      else { s with currentExerciseIndex := (i : Int) + 1, exerciseElapsedSeconds := 0 } := by
  have hlen : i + 1 < ps.length := (List.getElem?_eq_some.1 hn).1
  have hlt : ¬ ((i : Int) + 1 ≥ (ps.length : Int)) := by omega
  have hnx : exerciseAt ps ((i : Int) + 1) = some next := by
    rw [exerciseAt_natCast_succ]; exact hn
  by_cases hb : prev.block = next.block
  · simp [completeCurrentExercise, hidx, hlt, exerciseAt_natCast, hp, hnx, hb,
      startCurrentExercise]
  · by_cases hr : blockRestSeconds config prev.block > 0
    · have hr' : 0 < blockRestSeconds config prev.block := hr
      simp [completeCurrentExercise, hidx, hlt, exerciseAt_natCast, hp, hnx, hb, hr']
    · have hr' : ¬ 0 < blockRestSeconds config prev.block := hr
      simp [completeCurrentExercise, hidx, hlt, exerciseAt_natCast, hp, hnx, hb, hr',
        startCurrentExercise]

theorem built_gap (config : TimingConfig) {es : List Exercise} {ps : List ProcessedExercise}
    {total : Int} (hb : Built config 0 none es ps total)
    (i : Nat) (prev next : ProcessedExercise)
    (hp : ps[i]? = some prev) (hn : ps[i + 1]? = some next) :
    next.setupStartTime - prev.endTime =
      if prev.block ≠ next.block ∧ blockRestSeconds config prev.block > 0 then
        blockRestSeconds config prev.block
      else 0 := by
  obtain ⟨e, hblock, hs⟩ := built_adjacent config _ _ _ _ _ hb i prev next hp hn
  simp only [clockAfterRest, hblock] at hs
  rw [hs]
  by_cases h₁ : prev.block = next.block
  · simp [h₁]
  · by_cases h₂ : blockRestSeconds config prev.block > 0
    · simp [h₁, h₂]
    · simp [h₁, h₂]

theorem lookup_safe_of_forall (table : List (String × Int))
    (hall : ∀ kv ∈ table, SafeInt kv.2) :
    ∀ b r, table.lookup b = some r → SafeInt r := by
  induction table with
  | nil => intro b r h; simp at h
  | cons kv table ih =>
    intro b r h
    obtain ⟨k, v⟩ := kv
    rw [List.lookup_cons] at h
    split at h
    · simp only [Option.some.injEq] at h
      subst h
      exact hall (k, v) (List.mem_cons_self _ _)
    · exact ih (fun kv hkv => hall kv (List.mem_cons_of_mem _ hkv)) b r h

theorem blockRestSeconds_safe (config : TimingConfig)
    (hrest : ∀ b r, config.block_rest_s.lookup b = some r → SafeInt r) (block : String) :
    SafeInt (blockRestSeconds config block) := by
  unfold blockRestSeconds
  cases h : config.block_rest_s.lookup block with
  | none => exact ⟨by decide, by decide⟩
  | some r => exact hrest block r h

theorem blockRestStarted_toJs (config : TimingConfig) (prev next : ProcessedExercise) :
    Js.blockRestStarted (restTableJs config) prev.toJs next.toJs =
      if prev.block ≠ next.block ∧ blockRestSeconds config prev.block > 0 then
        some (JSNumber.ofInt (blockRestSeconds config prev.block))
      else none := by
  unfold Js.blockRestStarted
  simp only [blockRestSeconds_toJs, JSNumber.lt_ofInt, ProcessedExercise.toJs]
  by_cases h₁ : prev.block = next.block
  · simp [h₁]
  · by_cases h₂ : blockRestSeconds config prev.block > 0
    · have h₂' : 0 < blockRestSeconds config prev.block := h₂
      simp [h₁, h₂']
    · have h₂' : ¬ 0 < blockRestSeconds config prev.block := h₂
      simp [h₁, h₂']

/-- C26, refuted as stated: in the file `hugeTiming` the builder puts the
start of B at `2 ^ 53`, the end of A, so the gap
`setupStartTime - endTime` is 0, while on completing A
`completeCurrentExercise` starts a block rest of `rest[A] = 1` second: the
`+ 1` of the builder is rounded away, the machine reads the table itself. -/
theorem rest_started_without_gap :
    Js.processExercises (restTableJs hugeTiming.config)
        (hugeTiming.exercises.map Exercise.toJs) demoI18n "it"
      = some ([hugeA, hugeB], JSNumber.finite 4503599627370496 1) ∧
    hugeA.endTime.eq (JSNumber.ofInt 9007199254740992) = true ∧
    hugeB.setupStartTime.eq (JSNumber.ofInt 9007199254740992) = true ∧
    (hugeB.setupStartTime.sub hugeA.endTime).eq (JSNumber.ofInt 0) = true ∧
    Js.blockRestStarted (restTableJs hugeTiming.config) hugeA hugeB
      = some (JSNumber.ofInt 1) ∧
    (startCallback initialState).currentPhase = Phase.exercise ∧
    (startCallback initialState).currentExerciseIndex = 0 ∧
    (completeCurrentExercise hugeTiming.config hugeProcessed
      (startCallback initialState)).currentPhase = Phase.block_rest ∧
    (completeCurrentExercise hugeTiming.config hugeProcessed
      (startCallback initialState)).blockRestRemaining = some 1 := by
  decide

/-- C26 as amended (timeline and machine agree on rests).  For whole-number
durations and rests which are safe integers, as is every exact time of the
timeline: the builder over numbers returns the exact timeline, and
for every adjacent pair `prev`, `next` of it, with the gap
`next.setupStartTime - prev.endTime` (computed exactly by `-`): the gap is
never negative; completing `prev` in phase `exercise` makes
`completeCurrentExercise` call `startBlockRest(R)` and enter `block_rest` with
`blockRestRemaining = R` exactly when the gap is `R` and `R > 0`, creating one
`restTimer`; and when the gap is 0 the call is not made, the phase stays
`exercise` and no `restTimer` is created. -/
theorem rest_agrees_with_timeline (timing : Timing) (i18n : I18n) (lang : String)
    (ps : List ProcessedExercise) (total : Int)
    (hbuild : processExercises timing i18n lang = some (ps, total))
    (hsafe : SafeTimeline timing ps)
    (s : State) (i : Nat) (prev next : ProcessedExercise)
    (hphase : s.currentPhase = Phase.exercise)
    (hidx : s.currentExerciseIndex = (i : Int))
    (hp : ps[i]? = some prev) (hn : ps[i + 1]? = some next) :
    Js.processExercises (restTableJs timing.config) (timing.exercises.map Exercise.toJs)
      i18n lang = some (ps.map ProcessedExercise.toJs, JSNumber.ofInt total) ∧
    next.toJs.setupStartTime.sub prev.toJs.endTime
      = JSNumber.ofInt (next.setupStartTime - prev.endTime) ∧
    Js.blockRestStarted (restTableJs timing.config) prev.toJs next.toJs
      = (if 0 < next.setupStartTime - prev.endTime then
          some (JSNumber.ofInt (next.setupStartTime - prev.endTime))
        else none) ∧
    0 ≤ next.setupStartTime - prev.endTime ∧
    (∀ R : Int,
      ((completeCurrentExercise timing.config ps s).currentPhase = Phase.block_rest ∧
        (completeCurrentExercise timing.config ps s).blockRestRemaining = some R) ↔
      (0 < R ∧ next.setupStartTime - prev.endTime = R)) ∧
    (0 < next.setupStartTime - prev.endTime →
      (completeCurrentExercise timing.config ps s).restTimers = s.restTimers + 1) ∧
    (next.setupStartTime - prev.endTime = 0 →
      (completeCurrentExercise timing.config ps s).currentPhase = Phase.exercise ∧
      (completeCurrentExercise timing.config ps s).restTimers = s.restTimers) := by
  have hgap := built_gap timing.config (processExercises_built hbuild) i prev next hp hn
  have hcomp := completeCurrentExercise_adjacent timing.config ps s i prev next hidx hp hn
  have hsg : SafeInt (next.setupStartTime - prev.endTime) := by
    rw [hgap]
    split_ifs
    · exact blockRestSeconds_safe timing.config
        (lookup_safe_of_forall _ hsafe.2.1) prev.block
    · exact ⟨by decide, by decide⟩
  refine ⟨processExercises_toJs hbuild hsafe.2.2, JSNumber.sub_ofInt _ _ hsg, ?_, ?_⟩
  · rw [blockRestStarted_toJs, hgap]
    by_cases hc : prev.block ≠ next.block ∧ blockRestSeconds timing.config prev.block > 0
    · have hpos : 0 < blockRestSeconds timing.config prev.block := hc.2
      simp only [if_pos hc, if_pos hpos]
    · simp only [if_neg hc, lt_self_iff_false, if_false]
  rw [hcomp, hgap]
  by_cases hc : prev.block ≠ next.block ∧ blockRestSeconds timing.config prev.block > 0
  · have hpos : 0 < blockRestSeconds timing.config prev.block := hc.2
    simp only [if_pos hc]
    refine ⟨by omega, ?_, ?_, ?_⟩
    · intro R
      simp only [startBlockRest, Option.some.injEq, true_and]
      constructor
      · intro h; subst h; exact ⟨hpos, rfl⟩
      · intro h; exact h.2
    · intro _; rfl
    · intro h; omega
  · simp only [if_neg hc]
    refine ⟨le_refl _, ?_, ?_, ?_⟩
    · intro R
      simp only [hphase]
      constructor
      · intro h; exact absurd h.1 (by decide)
      · intro h; omega
    · intro h; omega
    · intro _; exact ⟨hphase, trivial⟩

/-- Witness for the amended C26: in the scenario the gap between A and B is
7 - 2 = 5 and completing A starts a block rest of 5 seconds. -/
theorem rest_agrees_with_timeline_witness :
    processExercises demoTiming demoI18n "it" = some (demoProcessed, 11) ∧
    SafeTimeline demoTiming demoProcessed ∧
    procB.toJs.setupStartTime.sub procA.toJs.endTime = JSNumber.ofInt 5 ∧
    Js.blockRestStarted (restTableJs demoTiming.config) procA.toJs procB.toJs
      = some (JSNumber.ofInt 5) ∧
    (completeCurrentExercise demoTiming.config demoProcessed (demoAt 4)).currentPhase
      = Phase.block_rest ∧
    (completeCurrentExercise demoTiming.config demoProcessed (demoAt 4)).blockRestRemaining
      = some 5 :=
  have h := rest_agrees_with_timeline demoTiming demoI18n "it" demoProcessed 11 (by decide)
    (by decide) (demoAt 4) 0 procA procB (by decide) (by decide) (by decide)
    (by decide)
  ⟨by decide, by decide, h.2.1, h.2.2.1,
    ((h.2.2.2.2.1 5).2 ⟨by decide, by decide⟩).1,
    ((h.2.2.2.2.1 5).2 ⟨by decide, by decide⟩).2⟩

/-! ## Rebuilding and localisation -/

theorem timedAs_timingFields {p p' : ProcessedExercise} {e : Exercise} {t : Int}
    (h : TimedAs p e t) (h' : TimedAs p' e t) : timingFields p = timingFields p' := by
  obtain ⟨h₁, h₂, h₃, h₄, h₅, h₆, h₇, h₈, h₉⟩ := h
  obtain ⟨k₁, k₂, k₃, k₄, k₅, k₆, k₇, k₈, k₉⟩ := h'
  simp only [timingFields, h₁, h₂, h₃, h₄, h₅, h₆, h₇, h₈, h₉, k₁, k₂, k₃, k₄, k₅, k₆, k₇, k₈,
    k₉]

theorem built_timingFields_unique (config : TimingConfig) :
    ∀ (es : List Exercise) (t : Int) (b : Option String) (ps ps' : List ProcessedExercise)
      (total total' : Int), Built config t b es ps total → Built config t b es ps' total' →
      ps.map timingFields = ps'.map timingFields ∧ total = total' := by
  intro es
  induction es with
  | nil =>
    intro t b ps ps' total total' h h'
    cases ps with
    | cons p ps => exact absurd h (by simp [Built])
    | nil =>
      cases ps' with
      | cons p' ps' => exact absurd h' (by simp [Built])
      | nil =>
        simp only [Built] at h h'
        exact ⟨rfl, by rw [h, h']⟩
  | cons e es ih =>
    intro t b ps ps' total total' h h'
    cases ps with
    | nil => exact absurd h (by simp [Built])
    | cons p ps =>
      cases ps' with
      | nil => exact absurd h' (by simp [Built])
      | cons p' ps' =>
        simp only [Built] at h h'
        have hend : p.endTime = p'.endTime := by
          rw [h.1.2.2.2.2.2.2.2.1, h'.1.2.2.2.2.2.2.2.1]
        have h₂ := h'.2
        rw [← hend] at h₂
        obtain ⟨hmap, htot⟩ := ih _ _ _ _ _ _ h.2 h₂
        refine ⟨?_, htot⟩
        simp only [List.map_cons, timedAs_timingFields h.1 h'.1, hmap]

theorem processExercisesEffect_idempotent (timing : Timing) (i18n : I18n) (lang : String)
    (old : TimelineFields) :
    processExercisesEffect timing i18n lang (processExercisesEffect timing i18n lang old).1
      = processExercisesEffect timing i18n lang old := by
  unfold processExercisesEffect
  split
  · rfl
  · rfl

/-- C23 (rebuild).  For the same timing data, two builds that succeed (with
any languages, and any text tables) agree on every non-text field of every
entry and on the total; a build reads nothing of the machine's state but
`currentLang`, which `setLanguage` sets to the language asked for or to `it`;
and building again with the same inputs leaves the object as the first build
left it. -/
theorem rebuild_language_independent (timing : Timing) (i18n₁ i18n₂ : I18n)
    (lang₁ lang₂ : String) (ps₁ ps₂ : List ProcessedExercise) (total₁ total₂ : Int)
    (h₁ : processExercises timing i18n₁ lang₁ = some (ps₁, total₁))
    (h₂ : processExercises timing i18n₂ lang₂ = some (ps₂, total₂)) :
    ps₁.map timingFields = ps₂.map timingFields ∧ total₁ = total₂ ∧
    (∀ s s' : State, s.currentLang = s'.currentLang →
      processExercisesIn timing i18n₁ s = processExercisesIn timing i18n₁ s') ∧
    (∀ (lang : String) (s : State),
      processExercisesIn timing i18n₁ (setLanguage i18n₁ lang s) =
        processExercises timing i18n₁ (if lang ∈ i18n₁.languages then lang else "it")) ∧
    (∀ old : TimelineFields,
      processExercisesEffect timing i18n₁ lang₁
          (processExercisesEffect timing i18n₁ lang₁ old).1
        = processExercisesEffect timing i18n₁ lang₁ old) := by
  obtain ⟨hmap, htot⟩ := built_timingFields_unique timing.config _ _ _ _ _ _ _
    (processExercises_built h₁) (processExercises_built h₂)
  refine ⟨hmap, htot, ?_, fun _ _ => rfl, processExercisesEffect_idempotent timing i18n₁ lang₁⟩
  intro s s' hl
  simp only [processExercisesIn, hl]

/-- Witness for C23: the scenario built in `it` and in `en`. -/
theorem rebuild_language_independent_witness :
    processExercises demoTiming bilingualI18n "it" = some (demoProcessed, 11) ∧
    processExercises demoTiming bilingualI18n "en" = some (demoProcessedEn, 11) ∧
    demoProcessed.map timingFields = demoProcessedEn.map timingFields ∧
    demoProcessed ≠ demoProcessedEn :=
  have h := rebuild_language_independent demoTiming bilingualI18n bilingualI18n "it" "en"
    demoProcessed demoProcessedEn 11 11 (by decide) (by decide)
  ⟨by decide, by decide, h.1, by decide⟩

theorem processOne_textAs {timing : Timing} {i18n : I18n} {lang : String}
    {st st' : BuildState} {e : Exercise}
    (h : processOne timing i18n lang st e = some st') :
    ∃ p, st'.processedExercises = st.processedExercises ++ [p] ∧ TextAs i18n lang p e := by
  unfold processOne at h
  split at h
  · exact absurd h (by simp)
  · rename_i d hd
    split at h
    · exact absurd h (by simp)
    · split at h
      · exact absurd h (by simp)
      · rename_i text ht
        simp only [Option.some.injEq] at h
        subst h
        exact ⟨_, rfl, d, text, hd, ht, rfl, rfl, rfl, rfl⟩

theorem foldlM_processOne_textAs (timing : Timing) (i18n : I18n) (lang : String) :
    ∀ (es : List Exercise) (st st' : BuildState),
      es.foldlM (processOne timing i18n lang) st = some st' →
      ∃ ps, st'.processedExercises = st.processedExercises ++ ps ∧
        List.Forall₂ (TextAs i18n lang) ps es := by
  intro es
  induction es with
  | nil =>
    intro st st' h
    simp only [List.foldlM_nil, pure, Option.some.injEq] at h
    subst h
    exact ⟨[], by simp, List.Forall₂.nil⟩
  | cons e es ih =>
    intro st st' h
    rw [List.foldlM_cons] at h
    cases hstep : processOne timing i18n lang st e with
    | none => rw [hstep] at h; simp at h
    | some st₁ =>
      rw [hstep] at h
      simp only [Option.some_bind, bind] at h
      obtain ⟨p, hp, htext⟩ := processOne_textAs hstep
      obtain ⟨ps, hps, hall⟩ := ih st₁ st' h
      exact ⟨p :: ps, by rw [hps, hp]; simp, List.Forall₂.cons htext hall⟩

theorem forall₂_getElem? {α β : Type} {R : α → β → Prop} :
    ∀ {xs : List α} {ys : List β}, List.Forall₂ R xs ys →
      ∀ (i : Nat) (x : α) (y : β), xs[i]? = some x → ys[i]? = some y → R x y := by
  intro xs ys h
  induction h with
  | nil => intro i x y hx; simp at hx
  | cons hr _ ih =>
    intro i x y hx hy
    cases i with
    | zero =>
      simp only [List.getElem?_cons_zero, Option.some.injEq] at hx hy
      subst hx hy
      exact hr
    | succ i =>
      simp only [List.getElem?_cons_succ] at hx hy
      exact ih i x y hx hy

theorem runForEach_of_some (timing : Timing) (i18n : I18n) (lang : String) :
    ∀ (es : List Exercise) (st st' : BuildState),
      es.foldlM (processOne timing i18n lang) st = some st' →
      runForEach timing i18n lang es st = (st'.processedExercises, some st'.currentTime) := by
  intro es
  induction es with
  | nil =>
    intro st st' h
    simp only [List.foldlM_nil, pure, Option.some.injEq] at h
    subst h
    rfl
  | cons e es ih =>
    intro st st' h
    rw [List.foldlM_cons] at h
    cases hstep : processOne timing i18n lang st e with
    | none => rw [hstep] at h; simp at h
    | some st₁ =>
      rw [hstep] at h
      simp only [Option.some_bind, bind] at h
      simp only [runForEach, hstep]
      exact ih st₁ st' h

theorem runForEach_of_none (timing : Timing) (i18n : I18n) (lang : String) :
    ∀ (es : List Exercise) (st : BuildState),
      es.foldlM (processOne timing i18n lang) st = none →
      (runForEach timing i18n lang es st).2 = none ∧
      (runForEach timing i18n lang es st).1.length < st.processedExercises.length + es.length := by
  intro es
  induction es with
  | nil => intro st h; simp [pure] at h
  | cons e es ih =>
    intro st h
    rw [List.foldlM_cons] at h
    cases hstep : processOne timing i18n lang st e with
    | none =>
      simp only [runForEach, hstep, List.length_cons, true_and]
      omega
    | some st₁ =>
      rw [hstep] at h
      simp only [Option.some_bind, bind] at h
      obtain ⟨p, hp, _⟩ := processOne_eq_some hstep
      obtain ⟨h₁, h₂⟩ := ih st₁ h
      simp only [runForEach, hstep]
      refine ⟨h₁, ?_⟩
      rw [hp] at h₂
      simp only [List.length_append, List.length_singleton, List.length_cons,
        List.length_nil] at h₂ ⊢
      omega

theorem not_hasTexts_of_missing {i18n : I18n} {lang : String} {e : Exercise}
    (h : i18n.exercises.lookup e.id = none ∨
      ∃ d, i18n.exercises.lookup e.id = some d ∧ d.langs.lookup lang = none) :
    ¬ HasTexts i18n lang e := by
  rintro ⟨d, names, text, hd, _, ht⟩
  rcases h with h | ⟨d', hd', ht'⟩
  · rw [h] at hd; exact absurd hd (by simp)
  · rw [hd'] at hd
    simp only [Option.some.injEq] at hd
    subst hd
    rw [ht'] at ht
    exact absurd ht (by simp)

/-- C24, refuted as stated: with texts in which exercise `b` has an entry for
`it` that lacks `name` and has an empty `description`, `processExercises`
succeeds and emits `b` with `name` undefined and `description` blank. -/
theorem blank_name_emitted :
    (processExercises demoTiming blankI18n "it").map
        (fun r => r.1.map (fun p => (p.id, p.name, p.description)))
      = some [("a", some "Uno", some "primo"), ("b", none, some "")] ∧
    (processExercises demoTiming blankI18n "it").map (fun r => r.2) = some 11 := by
  decide

/-- C24 as amended.  If some exercise of `timing.exercises` has no entry in
`i18n.exercises`, or its entry has none for the language, `processExercises`
fails: it throws, `totalWorkoutSeconds` keeps its old value and
`processedExercises` is left with fewer entries than there are exercises.
When it succeeds, each entry carries the `name` and `description` that the
table has for its exercise in the language, as they are there (absent or
empty included). -/
theorem processExercises_localisation (timing : Timing) (i18n : I18n) (lang : String) :
    ((∃ e ∈ timing.exercises, i18n.exercises.lookup e.id = none ∨
        ∃ d, i18n.exercises.lookup e.id = some d ∧ d.langs.lookup lang = none) →
      processExercises timing i18n lang = none ∧
      ∀ old : TimelineFields,
        (processExercisesEffect timing i18n lang old).2 = true ∧
        (processExercisesEffect timing i18n lang old).1.totalWorkoutSeconds
          = old.totalWorkoutSeconds ∧
        (processExercisesEffect timing i18n lang old).1.processedExercises.length
          < timing.exercises.length) ∧
    (∀ (ps : List ProcessedExercise) (total : Int),
      processExercises timing i18n lang = some (ps, total) →
      (∀ old : TimelineFields, processExercisesEffect timing i18n lang old =
        ({ processedExercises := ps, totalWorkoutSeconds := some total }, false)) ∧
      ∀ (i : Nat) (e : Exercise) (p : ProcessedExercise),
        timing.exercises[i]? = some e → ps[i]? = some p →
        ∃ d text, i18n.exercises.lookup e.id = some d ∧ d.langs.lookup lang = some text ∧
          p.name = text.name ∧ p.description = text.description) := by
  refine ⟨?_, ?_⟩
  · rintro ⟨e, he, hmiss⟩
    have hnot : ¬ (processExercises timing i18n lang).isSome := by
      rw [processExercises_isSome_iff]
      intro hall
      exact not_hasTexts_of_missing hmiss (hall e he)
    have hnone : processExercises timing i18n lang = none := by
      cases hp : processExercises timing i18n lang with
      | none => rfl
      | some r => rw [hp] at hnot; simp at hnot
    refine ⟨hnone, ?_⟩
    intro old
    have hfold : timing.exercises.foldlM (processOne timing i18n lang)
        { currentTime := 0, currentBlock := none, processedExercises := [] } = none := by
      unfold processExercises at hnone
      simpa using hnone
    obtain ⟨h₁, h₂⟩ := runForEach_of_none timing i18n lang _ _ hfold
    unfold processExercisesEffect
    cases hrf : runForEach timing i18n lang timing.exercises
        { currentTime := 0, currentBlock := none, processedExercises := [] } with
    | mk ps' r =>
      rw [hrf] at h₁ h₂
      simp only at h₁
      subst h₁
      simp only [List.length_nil, zero_add] at h₂
      exact ⟨rfl, rfl, h₂⟩
  · intro ps total h
    have hfold : ∃ st', timing.exercises.foldlM (processOne timing i18n lang)
        { currentTime := 0, currentBlock := none, processedExercises := [] } = some st' ∧
        st'.processedExercises = ps ∧ st'.currentTime = total := by
      unfold processExercises at h
      cases hf : timing.exercises.foldlM (processOne timing i18n lang)
          { currentTime := 0, currentBlock := none, processedExercises := [] } with
      | none => rw [hf] at h; simp at h
      | some st' =>
        rw [hf] at h
        simp only [Option.map_some', Option.some.injEq, Prod.mk.injEq] at h
        exact ⟨st', rfl, h.1, h.2⟩
    obtain ⟨st', hf, hps, htot⟩ := hfold
    refine ⟨?_, ?_⟩
    · intro old
      unfold processExercisesEffect
      rw [runForEach_of_some timing i18n lang _ _ _ hf, hps, htot]
    · intro i e p he hp
      obtain ⟨ps', hps', hall⟩ := foldlM_processOne_textAs timing i18n lang _ _ _ hf
      simp only [List.nil_append] at hps'
      rw [hps] at hps'
      subst hps'
      obtain ⟨d, text, hd, ht, hn, hdesc, _, _⟩ := forall₂_getElem? hall i p e hp he
      exact ⟨d, text, hd, ht, hn, hdesc⟩

/-- Witness for the amended C24: with no entry for `b` the build of the
scenario throws after the entry for `a`, leaving the old total; with the
complete texts the second entry carries the name and description of `b`. -/
theorem processExercises_localisation_witness :
    (∃ e ∈ demoTiming.exercises, missingI18n.exercises.lookup e.id = none ∨
        ∃ d, missingI18n.exercises.lookup e.id = some d ∧ d.langs.lookup "it" = none) ∧
    processExercises demoTiming missingI18n "it" = none ∧
    processExercisesEffect demoTiming missingI18n "it"
        { processedExercises := demoProcessed, totalWorkoutSeconds := some 11 }
      = ({ processedExercises := [procA], totalWorkoutSeconds := some 11 }, true) ∧
    (∃ d text, demoI18n.exercises.lookup exB.id = some d ∧ d.langs.lookup "it" = some text ∧
      procB.name = text.name ∧ procB.description = text.description) :=
  ⟨⟨exB, by decide, Or.inl (by decide)⟩,
    ((processExercises_localisation demoTiming missingI18n "it").1
      ⟨exB, by decide, Or.inl (by decide)⟩).1,
    by decide,
    ((processExercises_localisation demoTiming demoI18n "it").2 demoProcessed 11
      (by decide)).2 1 exB procB (by decide) (by decide)⟩

/-! ## File validation -/

theorem mem_insertionOrder (x : String) : ∀ l : List String, x ∈ insertionOrder l ↔ x ∈ l := by
  intro l
  induction l with
  | nil => simp [insertionOrder]
  | cons a l ih =>
    simp only [insertionOrder, List.mem_cons, List.mem_filter, ih, decide_eq_true_eq]
    constructor
    · rintro (h | ⟨h, _⟩)
      · exact Or.inl h
      · exact Or.inr h
    · rintro (h | h)
      · exact Or.inl h
      · by_cases hx : x = a
        · exact Or.inl hx
        · exact Or.inr ⟨h, hx⟩

theorem nodup_insertionOrder : ∀ l : List String, (insertionOrder l).Nodup := by
  intro l
  induction l with
  | nil => simp [insertionOrder]
  | cons a l ih =>
    simp only [insertionOrder, List.nodup_cons, List.mem_filter, decide_eq_true_eq]
    exact ⟨fun h => h.2 rfl, ih.filter _⟩

theorem validateFiles_errors (timing : Timing) (i18n : I18n) :
    (validateFiles timing i18n).errors =
      (if timing.schema_version ≠ "timed-v1" then
        [ValidationError.timingSchema timing.schema_version] else []) ++
      (if i18n.schema_version ≠ "i18n-v1" then
        [ValidationError.i18nSchema i18n.schema_version] else []) ++
      ((insertionOrder (timing.exercises.map fun ex => ex.id)).filter fun id =>
        decide (id ∉ i18n.exercises.map Prod.fst)).map ValidationError.missingExercise ++
      ((insertionOrder (timing.sequence ++ timing.exercises.map fun ex => ex.block)).filter
        fun blockId => decide (blockId ∉ i18nBlockIds i18n)).map ValidationError.missingBlock :=
  rfl

theorem validateFiles_isValid (timing : Timing) (i18n : I18n) :
    (validateFiles timing i18n).isValid = true ↔ (validateFiles timing i18n).errors = [] := by
  show decide ((validateFiles timing i18n).errors.length = 0) = true ↔ _
  simp only [decide_eq_true_eq, List.length_eq_zero]

theorem count_missingExercise (timing : Timing) (i18n : I18n) (id : String) :
    (validateFiles timing i18n).errors.count (ValidationError.missingExercise id) =
      if (∃ e ∈ timing.exercises, e.id = id) ∧ id ∉ i18n.exercises.map Prod.fst then 1
      else 0 := by
  rw [validateFiles_errors]
  simp only [List.count_append]
  have h₁ : List.count (ValidationError.missingExercise id)
      (if timing.schema_version ≠ "timed-v1" then
        [ValidationError.timingSchema timing.schema_version] else []) = 0 := by
    apply List.count_eq_zero_of_not_mem
    split_ifs <;> simp
  have h₂ : List.count (ValidationError.missingExercise id)
      (if i18n.schema_version ≠ "i18n-v1" then
        [ValidationError.i18nSchema i18n.schema_version] else []) = 0 := by
    apply List.count_eq_zero_of_not_mem
    split_ifs <;> simp
  have h₄ : List.count (ValidationError.missingExercise id)
      (((insertionOrder (timing.sequence ++ timing.exercises.map fun ex => ex.block)).filter
        fun blockId => decide (blockId ∉ i18nBlockIds i18n)).map
          ValidationError.missingBlock) = 0 := by
    apply List.count_eq_zero_of_not_mem
    simp
  rw [h₁, h₂, h₄]
  simp only [zero_add, add_zero]
  have hnd : (((insertionOrder (timing.exercises.map fun ex => ex.id)).filter fun id =>
      decide (id ∉ i18n.exercises.map Prod.fst)).map ValidationError.missingExercise).Nodup :=
    ((nodup_insertionOrder _).filter _).map (fun a b h => by injection h)
  split_ifs with hc
  · apply List.count_eq_one_of_mem hnd
    obtain ⟨⟨e, he, hid⟩, hmiss⟩ := hc
    exact List.mem_map.2 ⟨id, List.mem_filter.2
      ⟨(mem_insertionOrder _ _).2 (List.mem_map.2 ⟨e, he, hid⟩), decide_eq_true hmiss⟩, rfl⟩
  · apply List.count_eq_zero_of_not_mem
    intro hin
    obtain ⟨x, hx, hxe⟩ := List.mem_map.1 hin
    injection hxe with hxe
    subst hxe
    obtain ⟨h₅, h₆⟩ := List.mem_filter.1 hx
    obtain ⟨e, he, hid⟩ := List.mem_map.1 ((mem_insertionOrder _ _).1 h₅)
    exact hc ⟨⟨e, he, hid⟩, of_decide_eq_true h₆⟩

theorem count_missingBlock (timing : Timing) (i18n : I18n) (b : String) :
    (validateFiles timing i18n).errors.count (ValidationError.missingBlock b) =
      if (b ∈ timing.sequence ∨ ∃ e ∈ timing.exercises, e.block = b) ∧ b ∉ i18nBlockIds i18n
      then 1 else 0 := by
  rw [validateFiles_errors]
  simp only [List.count_append]
  have h₁ : List.count (ValidationError.missingBlock b)
      (if timing.schema_version ≠ "timed-v1" then
        [ValidationError.timingSchema timing.schema_version] else []) = 0 := by
    apply List.count_eq_zero_of_not_mem
    split_ifs <;> simp
  have h₂ : List.count (ValidationError.missingBlock b)
      (if i18n.schema_version ≠ "i18n-v1" then
        [ValidationError.i18nSchema i18n.schema_version] else []) = 0 := by
    apply List.count_eq_zero_of_not_mem
    split_ifs <;> simp
  have h₃ : List.count (ValidationError.missingBlock b)
      (((insertionOrder (timing.exercises.map fun ex => ex.id)).filter fun id =>
        decide (id ∉ i18n.exercises.map Prod.fst)).map ValidationError.missingExercise) = 0 := by
    apply List.count_eq_zero_of_not_mem
    simp
  rw [h₁, h₂, h₃]
  simp only [zero_add, add_zero]
  have hnd : (((insertionOrder (timing.sequence ++ timing.exercises.map fun ex => ex.block)).filter
      fun blockId => decide (blockId ∉ i18nBlockIds i18n)).map
        ValidationError.missingBlock).Nodup :=
    ((nodup_insertionOrder _).filter _).map (fun a b h => by injection h)
  have hmem : ∀ x, x ∈ timing.sequence ++ timing.exercises.map (fun ex => ex.block) ↔
      (x ∈ timing.sequence ∨ ∃ e ∈ timing.exercises, e.block = x) := by
    intro x
    simp only [List.mem_append, List.mem_map]
  split_ifs with hc
  · apply List.count_eq_one_of_mem hnd
    exact List.mem_map.2 ⟨b, List.mem_filter.2
      ⟨(mem_insertionOrder _ _).2 ((hmem b).2 hc.1), decide_eq_true hc.2⟩, rfl⟩
  · apply List.count_eq_zero_of_not_mem
    intro hin
    obtain ⟨x, hx, hxe⟩ := List.mem_map.1 hin
    injection hxe with hxe
    subst hxe
    obtain ⟨h₅, h₆⟩ := List.mem_filter.1 hx
    exact hc ⟨(hmem x).1 ((mem_insertionOrder _ _).1 h₅), of_decide_eq_true h₆⟩

theorem mem_i18nBlockIds (i18n : I18n) (b : String) :
    b ∈ i18nBlockIds i18n ↔
      ∃ names, i18n.blocks.lookup "it" = some names ∧ b ∈ names.map Prod.fst := by
  unfold i18nBlockIds
  cases h : i18n.blocks.lookup "it" with
  | none => simp
  | some names => simp

/-- C25 (file validation).  `validateFiles` returns `isValid = true` exactly
when the timing schema version is `timed-v1`, the text schema version is
`i18n-v1`, every exercise id of the timing file is a key of `i18n.exercises`
and every block id of `timing.sequence` or of an exercise is a key of the
table `i18n.blocks.it` (which must therefore exist: the tables of other
languages are not consulted); `isValid` is true exactly when `errors` is
empty; and every exercise id, and every block id, has exactly one error if it
occurs in the timing file and is missing, however often it occurs, and no
error otherwise. -/
theorem validateFiles_spec (timing : Timing) (i18n : I18n) :
    ((validateFiles timing i18n).isValid = true ↔
      (timing.schema_version = "timed-v1" ∧ i18n.schema_version = "i18n-v1" ∧
        (∀ e ∈ timing.exercises, ∃ data, (e.id, data) ∈ i18n.exercises) ∧
        (∀ b, (b ∈ timing.sequence ∨ ∃ e ∈ timing.exercises, e.block = b) →
          ∃ names name, i18n.blocks.lookup "it" = some names ∧ (b, name) ∈ names))) ∧
    ((validateFiles timing i18n).isValid = true ↔ (validateFiles timing i18n).errors = []) ∧
    (∀ id, (validateFiles timing i18n).errors.count (ValidationError.missingExercise id) ≤ 1 ∧
      ((validateFiles timing i18n).errors.count (ValidationError.missingExercise id) = 1 ↔
        ((∃ e ∈ timing.exercises, e.id = id) ∧ ¬ ∃ data, (id, data) ∈ i18n.exercises))) ∧
    (∀ b, (validateFiles timing i18n).errors.count (ValidationError.missingBlock b) ≤ 1 ∧
      ((validateFiles timing i18n).errors.count (ValidationError.missingBlock b) = 1 ↔
        ((b ∈ timing.sequence ∨ ∃ e ∈ timing.exercises, e.block = b) ∧
          ¬ ∃ names name, i18n.blocks.lookup "it" = some names ∧ (b, name) ∈ names))) := by
  have hkey : ∀ id, id ∈ i18n.exercises.map Prod.fst ↔ ∃ data, (id, data) ∈ i18n.exercises := by
    intro id
    simp only [List.mem_map, Prod.exists, exists_and_right, exists_eq_right]
  have hblock : ∀ b, b ∈ i18nBlockIds i18n ↔
      ∃ names name, i18n.blocks.lookup "it" = some names ∧ (b, name) ∈ names := by
    intro b
    rw [mem_i18nBlockIds]
    simp only [List.mem_map, Prod.exists, exists_and_right, exists_eq_right]
    constructor
    · rintro ⟨names, h, name, hm⟩
      exact ⟨names, name, h, hm⟩
    · rintro ⟨names, name, h, hm⟩
      exact ⟨names, h, name, hm⟩
  refine ⟨?_, validateFiles_isValid timing i18n, ?_, ?_⟩
  · rw [validateFiles_isValid, validateFiles_errors]
    simp only [List.append_eq_nil, List.map_eq_nil_iff, List.filter_eq_nil_iff,
      mem_insertionOrder, decide_eq_true_eq, not_not]
    constructor
    · rintro ⟨⟨⟨h₁, h₂⟩, h₃⟩, h₄⟩
      refine ⟨?_, ?_, ?_, ?_⟩
      · by_contra hne
        rw [if_pos hne] at h₁
        exact absurd h₁ (by simp)
      · by_contra hne
        rw [if_pos hne] at h₂
        exact absurd h₂ (by simp)
      · intro e he
        exact (hkey e.id).1 (h₃ e.id (List.mem_map.2 ⟨e, he, rfl⟩))
      · intro b hb
        apply (hblock b).1
        apply h₄ b
        rcases hb with hb | ⟨e, he, hbe⟩
        · exact List.mem_append.2 (Or.inl hb)
        · exact List.mem_append.2 (Or.inr (List.mem_map.2 ⟨e, he, hbe⟩))
    · rintro ⟨h₁, h₂, h₃, h₄⟩
      refine ⟨⟨⟨?_, ?_⟩, ?_⟩, ?_⟩
      · rw [if_neg (not_not.2 h₁)]
      · rw [if_neg (not_not.2 h₂)]
      · intro id hid
        obtain ⟨e, he, hid'⟩ := List.mem_map.1 hid
        rw [← hid']
        exact (hkey e.id).2 (h₃ e he)
      · intro b hb
        apply (hblock b).2
        apply h₄ b
        rcases List.mem_append.1 hb with hb | hb
        · exact Or.inl hb
        · obtain ⟨e, he, hbe⟩ := List.mem_map.1 hb
          exact Or.inr ⟨e, he, hbe⟩
  · intro id
    rw [count_missingExercise]
    split_ifs with hc
    · exact ⟨le_refl 1, fun _ => ⟨hc.1, fun h => hc.2 ((hkey id).2 h)⟩, fun _ => rfl⟩
    · exact ⟨Nat.zero_le 1, fun h => absurd h (by decide),
        fun h => absurd ⟨h.1, fun h' => h.2 ((hkey id).1 h')⟩ hc⟩
  · intro b
    rw [count_missingBlock]
    split_ifs with hc
    · exact ⟨le_refl 1, fun _ => ⟨hc.1, fun h => hc.2 ((hblock b).2 h)⟩, fun _ => rfl⟩
    · exact ⟨Nat.zero_le 1, fun h => absurd h (by decide),
        fun h => absurd ⟨h.1, fun h' => h.2 ((hblock b).1 h')⟩ hc⟩

/-- Evidence for C25 on concrete files: the scenario's files are valid; a timing
file with schema `timed-v2`, exercise `b` twice and block `C` twice in
`sequence`, checked against texts without `b`, yields exactly three errors;
and texts whose `blocks` table has only the language `en` make both blocks of
the scenario missing, although `blocks.en` names them. -/
theorem validateFiles_spec_witness :
    (validateFiles demoTiming demoI18n).isValid = true ∧
    (validateFiles badTiming missingI18n).isValid = false ∧
    (validateFiles badTiming missingI18n).errors =
      [ValidationError.timingSchema "timed-v2", ValidationError.missingExercise "b",
       ValidationError.missingBlock "C"] ∧
    (validateFiles demoTiming enOnlyI18n).errors =
      [ValidationError.missingBlock "A", ValidationError.missingBlock "B"] ∧
    ((∃ e ∈ badTiming.exercises, e.id = "b") ∧ ¬ ∃ data, ("b", data) ∈ missingI18n.exercises) ∧
    (("A" ∈ demoTiming.sequence ∨ ∃ e ∈ demoTiming.exercises, e.block = "A") ∧
      ¬ ∃ names name, enOnlyI18n.blocks.lookup "it" = some names ∧ ("A", name) ∈ names) ∧
    (∃ names name, demoI18n.blocks.lookup "it" = some names ∧ ("A", name) ∈ names) :=
  ⟨by decide, by decide, by decide, by decide,
    ((validateFiles_spec badTiming missingI18n).2.2.1 "b").2.1 (by decide),
    ((validateFiles_spec demoTiming enOnlyI18n).2.2.2 "A").2.1 (by decide),
    ((validateFiles_spec demoTiming demoI18n).1.1 (by decide)).2.2.2 "A" (Or.inl (by decide))⟩

end WorkoutTimer

